import Mathlib

/-!
Verification of the CombustiblesRD scrapers (scraper/scraper.py,
scraper/micm_scraper.py, scraper/build_trend.py, scraper/build_trend_min.py).

Python strings are embedded as `List Char`; machine floats as `ℚ` (every
number the scrapers handle is a short decimal literal, and Python's `round`
is embedded as exact half-to-even rounding on `ℚ`); fallible code returns
`Option`/`Except Unit`.  Regular expressions are embedded by a small
backtracking matcher over token lists (`Tok`), transcribing each pattern of
the source verbatim; the matcher is fuelled (fuel bounded by the token-list
size, which strictly decreases at every step) so that it is structurally
recursive and kernel-computable.
-/

set_option maxRecDepth 10000

/- Mathlib marks the `Rat` field operations irreducible, which blocks
`decide`/`rfl` evaluation of the embedded functions on concrete inputs;
restore the core reducibility for this development (an elaboration-only
setting: kernel checking is unaffected). -/
set_option allowUnsafeReducibility true
attribute [local semireducible] Rat.mul Rat.inv Rat.add Rat.sub Rat.neg Rat.div Rat.blt Rat.floor

/-- Characters treated as whitespace: the ASCII repertoire of Python's
`str.strip()` and of the regex class `\s` (the scraped documents contain no
exotic Unicode spaces, which Python would additionally accept). -/
def isWsC (c : Char) : Bool :=
  c = ' ' || c = '\t' || c = '\n' || c = '\r' || c = '\u000B' || c = '\u000C'

/-- Python `str.lower()`, modelled on ASCII plus the Spanish accented
letters that occur in this repository. -/
def pyLower (c : Char) : Char :=
  if 'A' ≤ c ∧ c ≤ 'Z' then Char.ofNat (c.toNat + 32)
  else if c = 'Á' then 'á' else if c = 'É' then 'é' else if c = 'Í' then 'í'
  else if c = 'Ó' then 'ó' else if c = 'Ú' then 'ú' else if c = 'Ñ' then 'ñ'
  else if c = 'Ü' then 'ü' else c

/-- Python `str.upper()` on the same repertoire (used only to state
case-insensitivity properties). -/
def pyUpper (c : Char) : Char :=
  if 'a' ≤ c ∧ c ≤ 'z' then Char.ofNat (c.toNat - 32)
  else if c = 'á' then 'Á' else if c = 'é' then 'É' else if c = 'í' then 'Í'
  else if c = 'ó' then 'Ó' else if c = 'ú' then 'Ú' else if c = 'ñ' then 'Ñ'
  else if c = 'ü' then 'Ü' else c

/-- scraper.py `strip_accents` (NFD-normalise, drop combining marks),
modelled as a character map on the precomposed Spanish repertoire; other
characters are untouched.  This map preserves string length, as NFD plus
mark-filtering does on precomposed text, so the index arithmetic of
`find_official_public_section` is faithful. -/
def stripAccentChar (c : Char) : Char :=
  if c = 'á' then 'a' else if c = 'é' then 'e' else if c = 'í' then 'i'
  else if c = 'ó' then 'o' else if c = 'ú' then 'u' else if c = 'ñ' then 'n'
  else if c = 'ü' then 'u'
  else if c = 'Á' then 'A' else if c = 'É' then 'E' else if c = 'Í' then 'I'
  else if c = 'Ó' then 'O' else if c = 'Ú' then 'U' else if c = 'Ñ' then 'N'
  else if c = 'Ü' then 'U' else c

/-- Python `str.strip()` with no argument. -/
def pyStrip (s : List Char) : List Char :=
  ((s.dropWhile (fun c => isWsC c)).reverse.dropWhile (fun c => isWsC c)).reverse

/-- Whether `needle` is a prefix of `hay` (char-exact). -/
def leadsWith : List Char → List Char → Bool
  | [], _ => true
  | _ :: _, [] => false
  | a :: as, b :: bs => a = b && leadsWith as bs

/-- Index of the first occurrence of `needle` in `hay`: Python
`hay.find(needle)` returning `none` for -1. -/
def findSubIdx (needle : List Char) : List Char → Option ℕ
  | [] => if leadsWith needle [] then some 0 else none
  | c :: rest =>
    if leadsWith needle (c :: rest) then some 0
    else (findSubIdx needle rest).map (· + 1)

/-- Python `needle in hay`. -/
def containsSub (needle hay : List Char) : Bool :=
  (findSubIdx needle hay).isSome

/-- Python `hay.find(needle, start)`. -/
def findSubFrom (needle hay : List Char) (start : ℕ) : Option ℕ :=
  (findSubIdx needle (hay.drop start)).map (· + start)

/-- The part of `hay` before the first occurrence of `sep`:
Python `hay.split(sep)[0]` (the whole string when `sep` does not occur). -/
def beforeFirst (sep : List Char) : List Char → List Char
  | [] => []
  | c :: rest =>
    if leadsWith sep (c :: rest) then []
    else c :: beforeFirst sep rest

/-- Replace every maximal run of characters satisfying `p` by the single
character `rep`: Python `re.sub(cls + "+", rep, s)` for a character class. -/
def collapseRunsGo (p : Char → Bool) (rep : Char) (prevIn : Bool) : List Char → List Char
  | [] => []
  | c :: rest =>
    if p c then
      if prevIn then collapseRunsGo p rep true rest
      else rep :: collapseRunsGo p rep true rest
    else c :: collapseRunsGo p rep false rest

def collapseRuns (p : Char → Bool) (rep : Char) (s : List Char) : List Char :=
  collapseRunsGo p rep false s

/-- Python `s.strip(chars)` for a one-character-class argument. -/
def stripBoth (p : Char → Bool) (s : List Char) : List Char :=
  ((s.dropWhile p).reverse.dropWhile p).reverse

/-- Python `str.splitlines()` (LF, CR and CRLF; no entry for a trailing
line break). -/
def splitLinesGo (acc : List Char) : List Char → List (List Char)
  | [] => if acc = [] then [] else [acc.reverse]
  | '\r' :: '\n' :: rest => acc.reverse :: splitLinesGo [] rest
  | '\r' :: rest => acc.reverse :: splitLinesGo [] rest
  | '\n' :: rest => acc.reverse :: splitLinesGo [] rest
  | c :: rest => splitLinesGo (c :: acc) rest

def splitLines (s : List Char) : List (List Char) :=
  splitLinesGo [] s

/-- Python `sep.join(parts)`. -/
def joinSep (sep : List Char) : List (List Char) → List Char
  | [] => []
  | [x] => x
  | x :: y :: rest => x ++ sep ++ joinSep sep (y :: rest)

/-- Python `os.path.basename` (POSIX): the part after the last '/'. -/
def basename (s : List Char) : List Char :=
  (s.reverse.takeWhile (fun c => ¬ c = '/')).reverse

/-- The stem of Python `os.path.splitext`: drop the last-dot extension
unless the dots are all leading. -/
def splitextStem (s : List Char) : List Char :=
  let revAfter := s.reverse.takeWhile (fun c => ¬ c = '.')
  if revAfter.length = s.length then s
  else
    let stemLen := s.length - revAfter.length - 1
    if (s.take stemLen).all (fun c => c = '.') then s else s.take stemLen

/-- Value of a digit string, most significant first (Python `int`). -/
def digitsToNat (s : List Char) : ℕ :=
  s.foldl (fun a c => 10 * a + (c.toNat - 48)) 0

def natDigitsGo : ℕ → ℕ → List Char → List Char
  | 0, _, acc => acc
  | fuel + 1, n, acc =>
    if n < 10 then Char.ofNat (48 + n) :: acc
    else natDigitsGo fuel (n / 10) (Char.ofNat (48 + n % 10) :: acc)

def natToDigits (n : ℕ) : List Char :=
  natDigitsGo (n + 1) n []

def padZeros (w : ℕ) (s : List Char) : List Char :=
  List.replicate (w - s.length) '0' ++ s

/-- Round half to even at integer precision, Python's `round(x)` on an exact
value. -/
def rhe (q : ℚ) : ℤ :=
  let f := ⌊q⌋
  let r := q - (f : ℚ)
  if r < 1 / 2 then f
  else if r > 1 / 2 then f + 1
  else if Even f then f else f + 1

/-- Python `round(x, n)` embedded exactly over `ℚ` (the binary-float
artefacts of CPython's rounding are not modelled; every value the scrapers
round is a short decimal). -/
def pyRound (n : ℕ) (q : ℚ) : ℚ :=
  (rhe (q * 10 ^ n) : ℚ) / 10 ^ n

def round2 (q : ℚ) : ℚ := pyRound 2 q

def round4 (q : ℚ) : ℚ := pyRound 4 q

/-- Length of the fractional part of a decimal literal: the characters
after the first '.'. -/
def fracLenOf (s : List Char) : ℕ :=
  ((s.dropWhile (fun c => ¬ c = '.')).drop 1).length

/-- Python `float()`, restricted to the alphabet of the scrapers' numeric
tokens (digits and dots: `parse_num` only ever builds such strings from
matches of `[\d\.\,]+`).  Python additionally accepts signs, exponents,
underscores between digits, `inf`/`nan`: none of these can reach `float`
here, and they map to `none`. -/
def pyFloat (s : List Char) : Option ℚ :=
  if s.all (fun c => c.isDigit || c = '.') ∧ s.count '.' ≤ 1 ∧ s.any (fun c => c.isDigit) then
    some ((digitsToNat (s.filter (fun c => c.isDigit)) : ℚ) / 10 ^ fracLenOf s)
  else none

/-- Embeds `parse_num` — identical in scraper/scraper.py (lines 24-30) and
scraper/micm_scraper.py (lines 94-100): strip, then if both ',' and '.'
occur drop dots and turn the comma into a dot, else turn commas into dots,
then `float`; `none` is a raised `ValueError`. -/
def parse_num (s : List Char) : Option ℚ :=
  let t := pyStrip s
  if (',' ∈ t) ∧ ('.' ∈ t) then
    pyFloat ((t.filter (fun c => ¬ c = '.')).map (fun c => if c = ',' then '.' else c))
  else
    pyFloat (t.map (fun c => if c = ',' then '.' else c))

/-- Regex-word characters for `\b` (Python `\w` with the Unicode flag, on
the repertoire occurring here: ASCII alphanumerics, underscore and the
Spanish accented letters). -/
def isWordC (c : Char) : Bool :=
  c.isAlphanum || c = '_' ||
  c = 'á' || c = 'é' || c = 'í' || c = 'ó' || c = 'ú' || c = 'ñ' || c = 'ü' ||
  c = 'Á' || c = 'É' || c = 'Í' || c = 'Ó' || c = 'Ú' || c = 'Ñ' || c = 'Ü'

/-- Tokens of the little regex engine.  Each source pattern is transcribed
as a `List Tok`; all literal comparisons are case-insensitive (every
pattern in the sources is compiled with `re.IGNORECASE` or applied to
lower-cased text). -/
inductive Tok where
  | lit : List Char → Tok
  | rep : (Char → Bool) → ℕ → Option ℕ → Tok
  | opt : List Tok → Tok
  | alt : List Tok → List Tok → Tok
  | bnd : Tok
  | eos : Tok
  | openG : Tok
  | closeG : Tok

mutual

def tokSize : Tok → ℕ
  | Tok.opt g => 1 + toksSize g
  | Tok.alt a b => 1 + toksSize a + toksSize b
  | _ => 1

def toksSize : List Tok → ℕ
  | [] => 0
  | t :: ts => tokSize t + toksSize ts

end

def updPrev (prev : Option Char) (consumed : List Char) : Option Char :=
  match consumed.getLast? with
  | some c => some c
  | none => prev

def bufAppend (buf : Option (List Char)) (consumed : List Char) : Option (List Char) :=
  buf.map (fun b => b ++ consumed)

/-- Backtracking matcher at a fixed position.  Arguments: fuel, remaining
tokens, remaining input, the character just before the remaining input (for
`\b`), the open capture buffer, the closed captures.  Greedy quantifiers
try the longest take first; `opt`/`alt` try the left branch first — the
same order as CPython's engine.  Each recursive call strictly decreases
`toksSize`, so fuel `toksSize toks + 1` can never run out. -/
def matchToksF : ℕ → List Tok → List Char → Option Char → Option (List Char) →
    List (List Char) → Option (List (List Char) × List Char)
  | _, [], s, _, _, gs => some (gs, s)
  | 0, _ :: _, _, _, _, _ => none
  | f + 1, Tok.lit l :: ts, s, prev, buf, gs =>
    let n := l.length
    let pre := s.take n
    if pre.length = n ∧ pre.map pyLower = l.map pyLower then
      matchToksF f ts (s.drop n) (updPrev prev pre) (bufAppend buf pre) gs
    else none
  | f + 1, Tok.rep p lo hi :: ts, s, prev, buf, gs =>
    let run := (s.takeWhile p).length
    let maxT := match hi with
      | none => run
      | some h => min h run
    ((List.range (maxT + 1 - lo)).map (fun i => maxT - i)).findSome? (fun k =>
      let pre := s.take k
      matchToksF f ts (s.drop k) (updPrev prev pre) (bufAppend buf pre) gs)
  | f + 1, Tok.opt g :: ts, s, prev, buf, gs =>
    match matchToksF f (g ++ ts) s prev buf gs with
    | some r => some r
    | none => matchToksF f ts s prev buf gs
  | f + 1, Tok.alt a b :: ts, s, prev, buf, gs =>
    match matchToksF f (a ++ ts) s prev buf gs with
    | some r => some r
    | none => matchToksF f (b ++ ts) s prev buf gs
  | f + 1, Tok.bnd :: ts, s, prev, buf, gs =>
    let lw := match prev with
      | some c => isWordC c
      | none => false
    let rw := match s with
      | c :: _ => isWordC c
      | [] => false
    if lw ≠ rw then matchToksF f ts s prev buf gs else none
  | f + 1, Tok.eos :: ts, s, prev, buf, gs =>
    if s = [] then matchToksF f ts s prev buf gs else none
  | f + 1, Tok.openG :: ts, s, prev, _, gs =>
    matchToksF f ts s prev (some []) gs
  | f + 1, Tok.closeG :: ts, s, prev, buf, gs =>
    matchToksF f ts s prev none (gs ++ [buf.getD []])

def matchToks (toks : List Tok) (s : List Char) (prev : Option Char) :
    Option (List (List Char) × List Char) :=
  matchToksF (toksSize toks + 1) toks s prev none []

/-- Leftmost search (`re.search`): try each start position in order,
remembering the previous character for word boundaries.  Returns
(start, end, captures). -/
def searchFromPos (toks : List Tok) : List Char → Option Char → ℕ →
    Option (ℕ × ℕ × List (List Char))
  | [], prev, off =>
    match matchToks toks [] prev with
    | some (gs, _) => some (off, off, gs)
    | none => none
  | c :: rest, prev, off =>
    match matchToks toks (c :: rest) prev with
    | some (gs, r) => some (off, off + ((c :: rest).length - r.length), gs)
    | none => searchFromPos toks rest (some c) (off + 1)

def reSearch (toks : List Tok) (s : List Char) : Option (ℕ × ℕ × List (List Char)) :=
  searchFromPos toks s none 0

/-- Anchored match (`re.match`): only at position 0, trailing input
allowed. -/
def reMatchAt0 (toks : List Tok) (s : List Char) : Option (List (List Char)) :=
  (matchToks toks s none).map (fun r => r.1)

/-- Common pattern pieces. -/
def wsT : Tok := Tok.rep isWsC 1 none

def ws0T : Tok := Tok.rep isWsC 0 none

def dT (lo hi : ℕ) : Tok := Tok.rep (fun c => c.isDigit) lo (some hi)

/-- The class `[a-záéíóú]` under `re.IGNORECASE`. -/
def isSpanVowelLetter (c : Char) : Bool :=
  let l := pyLower c
  ('a' ≤ l ∧ l ≤ 'z') || l = 'á' || l = 'é' || l = 'í' || l = 'ó' || l = 'ú'

def letsT : Tok := Tok.rep isSpanVowelLetter 1 none

/-- `(?:al|-)`. -/
def altAl : Tok := Tok.alt [Tok.lit ("al".toList)] [Tok.lit ("-".toList)]

/-- `(?:semana\s+)?`. -/
def pSemana : Tok := Tok.opt [Tok.lit ("semana".toList), wsT]

/-- `[\/\-]`. -/
def slashDashT : Tok := Tok.rep (fun c => c = '/' || c = '-') 1 (some 1)

/-- The class `[\d\.\,]` of the numeric patterns. -/
def isNumTokChar (c : Char) : Bool := c.isDigit || c = '.' || c = ','

/-- A calendar date as built by Python's `datetime.date`. -/
structure Date where
  year : ℕ
  month : ℕ
  day : ℕ
deriving DecidableEq, Repr

def isLeapYear (y : ℕ) : Prop := y % 4 = 0 ∧ (y % 100 ≠ 0 ∨ y % 400 = 0)

instance : ∀ y, Decidable (isLeapYear y) := fun y => by unfold isLeapYear; infer_instance

def daysInMonth (y m : ℕ) : ℕ :=
  if m = 2 then (if isLeapYear y then 29 else 28)
  else if m = 4 ∨ m = 6 ∨ m = 9 ∨ m = 11 then 30
  else 31

/-- The arguments `datetime.date(y, m, d)` accepts (MINYEAR = 1,
MAXYEAR = 9999); anything else raises `ValueError`. -/
def validDate (y m d : ℕ) : Prop :=
  1 ≤ y ∧ y ≤ 9999 ∧ 1 ≤ m ∧ m ≤ 12 ∧ 1 ≤ d ∧ d ≤ daysInMonth y m

instance : ∀ y m d, Decidable (validDate y m d) := fun y m d => by
  unfold validDate; infer_instance

/-- `date.isoformat()`: YYYY-MM-DD. -/
def isoOfDate (dt : Date) : List Char :=
  padZeros 4 (natToDigits dt.year) ++ '-' ::
    (padZeros 2 (natToDigits dt.month) ++ '-' :: padZeros 2 (natToDigits dt.day))

/-- `SPANISH_MONTHS` — identical in both scrapers. -/
def SPANISH_MONTHS : List (List Char × ℕ) :=
  [("enero".toList, 1), ("febrero".toList, 2), ("marzo".toList, 3),
   ("abril".toList, 4), ("mayo".toList, 5), ("junio".toList, 6),
   ("julio".toList, 7), ("agosto".toList, 8), ("septiembre".toList, 9),
   ("setiembre".toList, 9), ("octubre".toList, 10), ("noviembre".toList, 11),
   ("diciembre".toList, 12)]

/-- The `change` object of the output schema
(`{type: up|down|same, amount_dop}`). -/
structure Change where
  type : List Char
  amount_dop : Option ℚ
deriving DecidableEq, Repr

/-- A `PriceItem` of the output schema, as the dicts built by the parsers. -/
structure Item where
  label : List Char
  key : List Char
  price_dop : ℚ
  unit : List Char
  change : Option Change
deriving DecidableEq, Repr

/-- A week range of ISO dates (each possibly `None`). -/
abbrev Week := Option (List Char) × Option (List Char)

/-- The dedup-by-key loop, identical in micm_scraper.parse_prices_from_text
(lines 275-282) and scraper.parse_items_from_blocks (lines 228-235): keep
an item only when its key was not seen before. -/
def dedupGo : List Item → List (List Char) → List Item
  | [], _ => []
  | it :: rest, seen =>
    if it.key ∈ seen then dedupGo rest seen
    else it :: dedupGo rest (it.key :: seen)

def dedupByKey (items : List Item) : List Item :=
  dedupGo items []

namespace Micm

/-- micm_scraper.py `FUEL_KEYS`, in source (insertion) order. -/
def FUEL_KEYS : List (List Char × List Char) :=
  [("gasolina premium".toList, "gasolina_premium".toList),
   ("gasolina regular".toList, "gasolina_regular".toList),
   ("gasoil regular".toList, "gasoil_regular".toList),
   ("gasoil óptimo".toList, "gasoil_optimo".toList),
   ("gasoil optimo".toList, "gasoil_optimo".toList),
   ("avtur".toList, "avtur".toList),
   ("kerosene".toList, "kerosene".toList),
   ("fuel oil #6".toList, "fueloil_6".toList),
   ("fueloil #6".toList, "fueloil_6".toList),
   ("fuel oil 1%s".toList, "fueloil_1s".toList),
   ("fueloil 1%s".toList, "fueloil_1s".toList),
   ("gas licuado de petróleo".toList, "glp".toList),
   ("gas licuado de petroleo".toList, "glp".toList),
   ("gas licuado de petróleo (glp)".toList, "glp".toList),
   ("gas licuado de petroleo (glp)".toList, "glp".toList),
   ("gas natural".toList, "gas_natural".toList)]

/-- micm_scraper.py `LABEL_SYNONYMS`, in source order. -/
def LABEL_SYNONYMS : List (List Char × List Char) :=
  [("gasolina premium".toList, "Gasolina Premium".toList),
   ("gasolina regular".toList, "Gasolina Regular".toList),
   ("gasoil regular".toList, "Gasoil Regular".toList),
   ("gasoil óptimo".toList, "Gasoil Óptimo".toList),
   ("gasoil optimo".toList, "Gasoil Óptimo".toList),
   ("avtur".toList, "Avtur".toList),
   ("kerosene".toList, "Kerosene".toList),
   ("fuel oil #6".toList, "Fuel Oil #6".toList),
   ("fueloil #6".toList, "Fuel Oil #6".toList),
   ("fuel oil 1%s".toList, "Fuel Oil 1%S".toList),
   ("fueloil 1%s".toList, "Fuel Oil 1%S".toList),
   ("gas licuado de petróleo".toList, "Gas Licuado de Petróleo".toList),
   ("gas licuado de petroleo".toList, "Gas Licuado de Petróleo".toList),
   ("gas natural".toList, "Gas Natural".toList)]

def TABLE_HEADER_HINTS : List (List Char) :=
  [("precio al público".toList), ("precio al publico".toList),
   ("precio rd$ por galón".toList), ("precio rd$ por galon".toList),
   ("precio rd$ por m³".toList), ("precio rd$ por m3".toList),
   ("precio al público rd$".toList), ("precio al publico rd$".toList)]

/-- `DEC_RE = re.compile(r"([\d\.\,]+)")`. -/
def decToks : List Tok :=
  [Tok.openG, Tok.rep isNumTokChar 1 none, Tok.closeG]

/-- micm_scraper.py `norm_key` (lines 102-108): lower-case, collapse
whitespace, first `FUEL_KEYS` needle contained as a substring wins; else
snake-case fallback `re.sub(r"[^a-z0-9]+", "_", k).strip("_")`. -/
def norm_key (label : List Char) : List Char :=
  let k := collapseRuns isWsC ' ' (label.map pyLower)
  match FUEL_KEYS.find? (fun p => containsSub p.1 k) with
  | some p => p.2
  | none =>
    stripBoth (fun c => c = '_')
      (collapseRuns (fun c => ¬ (('a' ≤ c ∧ c ≤ 'z') ∨ c.isDigit)) '_' k)

/-- Scan for the first ')' with no intervening newline (`.` in `\(.*?\)`
does not cross lines), returning the suffix after it. -/
def findCloseNoNl : List Char → Option (List Char)
  | [] => none
  | ')' :: rest => some rest
  | '\n' :: _ => none
  | _ :: rest => findCloseNoNl rest

/-- `re.sub(r"\(.*?\)", "", low)`: drop every minimal parenthesised span.
Fuelled so that it is kernel-computable; fuel `length + 1` never runs
out since every step strictly shrinks the list. -/
def stripParensF : ℕ → List Char → List Char
  | 0, s => s
  | _ + 1, [] => []
  | f + 1, '(' :: rest =>
    match findCloseNoNl rest with
    | some after => stripParensF f after
    | none => '(' :: stripParensF f rest
  | f + 1, c :: rest => c :: stripParensF f rest

def stripParens (s : List Char) : List Char :=
  stripParensF (s.length + 1) s

/-- micm_scraper.py `normalize_label` (lines 110-124). -/
def normalize_label (raw : List Char) : Option (List Char) :=
  let low1 := stripParens (raw.map pyLower)
  let low := pyStrip (collapseRuns isWsC ' ' low1)
  match LABEL_SYNONYMS.find? (fun p => containsSub p.1 low) with
  | some p => some p.2
  | none =>
    if containsSub ("fuel".toList) low ∧ containsSub ("oil".toList) low ∧
        containsSub ("1".toList) low ∧ containsSub ("s".toList) low then
      some ("Fuel Oil 1%S".toList)
    else if containsSub ("fuel".toList) low ∧ containsSub ("oil".toList) low ∧
        containsSub ("#6".toList) low then
      some ("Fuel Oil #6".toList)
    else none

/-- micm_scraper.py `find_public_price_column` (lines 172-177). -/
def find_public_price_column (header : List (List Char)) : Option ℕ :=
  header.findIdx? (fun cell =>
    TABLE_HEADER_HINTS.any (fun h => containsSub h (cell.map pyLower)))

/-- The product-column heuristic of `parse_prices_from_tables`
(label_col defaults to 0). -/
def label_col_of (header : List (List Char)) : ℕ :=
  (header.findIdx? (fun cell =>
    let low := cell.map pyLower
    containsSub ("producto".toList) low || containsSub ("combustible".toList) low ||
      containsSub ("concepto".toList) low)).getD 0

/-- One body row of `parse_prices_from_tables`: `.ok none` is a `continue`,
`.error` a `ValueError` escaping from `parse_num`. -/
def tableRowItem (row : List (List Char)) (label_col pub_col : ℕ) :
    Except Unit (Option Item) :=
  if label_col < row.length ∧ pub_col < row.length then
    let raw_label := pyStrip (row.getD label_col [])
    let raw_price := pyStrip (row.getD pub_col [])
    if raw_label ≠ [] ∧ raw_price ≠ [] then
      match normalize_label raw_label with
      | none => .ok none
      | some label_norm =>
        match reSearch decToks raw_price with
        | none => .ok none
        | some (_, _, gs) =>
          match parse_num (gs.getD 0 []) with
          | none => .error ()
          | some price =>
            let unit := if containsSub ("natural".toList) (label_norm.map pyLower)
              then ("m3".toList) else ("galon".toList)
            .ok (some { label := label_norm, key := norm_key label_norm,
                        price_dop := round2 price, unit := unit, change := none })
    else .ok none
  else .ok none

def tableRows (label_col pub_col : ℕ) :
    List (List (List Char)) → List Item → Except Unit (List Item)
  | [], acc => .ok acc
  | row :: rest, acc =>
    match tableRowItem row label_col pub_col with
    | .error e => .error e
    | .ok none => tableRows label_col pub_col rest acc
    | .ok (some it) => tableRows label_col pub_col rest (acc ++ [it])

/-- Header/pub_col/body selection of `parse_prices_from_tables`:
row 0, else row 1 (when the table has a second row); `none` is a
`continue` to the next table. -/
def tableHeaderInfo (tbl : List (List (List Char))) :
    Option (List (List Char) × ℕ × List (List (List Char))) :=
  match find_public_price_column (tbl.headD []) with
  | some pc => some (tbl.headD [], pc, tbl.drop 1)
  | none =>
    if 1 < tbl.length then
      match find_public_price_column (tbl.getD 1 []) with
      | some pc => some (tbl.getD 1 [], pc, tbl.drop 2)
      | none => none
    else none

/-- The per-table loop of `parse_prices_from_tables` (lines 179-236):
`items` accumulates across tables and the first table leaving it nonempty
returns it; the final `return []` is the empty-list fall-through. -/
def tablesLoop : List (List (List (List Char))) → List Item → Except Unit (List Item)
  | [], _ => .ok []
  | tbl :: rest, items =>
    if tbl = [] then tablesLoop rest items
    else
      match tableHeaderInfo tbl with
      | none => tablesLoop rest items
      | some (header, pub_col, body) =>
        match tableRows (label_col_of header) pub_col body items with
        | .error e => .error e
        | .ok items2 =>
          if items2 ≠ [] then .ok items2 else tablesLoop rest items2

/-- micm_scraper.py `parse_prices_from_tables`, from the extracted table
grid onwards (pdfplumber's geometric extraction is the function's input
here). -/
def parse_prices_from_tables (tables : List (List (List (List Char)))) :
    Except Unit (List Item) :=
  tablesLoop tables []

/-- The per-line loop of `parse_prices_from_text` (lines 252-273), before
deduplication.  For `DEC_RE` the whole match and capture 1 coincide, so the
embedded `m.group(0)` used by `line.split` equals the capture. -/
def textLines : List (List Char) → Except Unit (List Item)
  | [] => .ok []
  | line :: rest =>
    let l := pyStrip line
    if l = [] then textLines rest
    else
      match reSearch decToks l with
      | none => textLines rest
      | some (_, _, gs) =>
        let g := gs.getD 0 []
        match normalize_label (beforeFirst g l) with
        | none => textLines rest
        | some label_guess =>
          match parse_num g with
          | none => .error ()
          | some price =>
            let unit := if containsSub ("natural".toList) (label_guess.map pyLower)
              then ("m3".toList) else ("galon".toList)
            match textLines rest with
            | .error e => .error e
            | .ok tl =>
              .ok ({ label := label_guess, key := norm_key label_guess,
                     price_dop := round2 price, unit := unit, change := none } :: tl)

/-- micm_scraper.py `parse_prices_from_text` (lines 240-282) up to the
dedup step: locate the "precio al público" block (else return `[]` — "no
arriesgar a capturar paridad"), slice 4000 characters, scan lines. -/
def rawTextItems (pdf_text : List Char) : Except Unit (List Item) :=
  match (findSubIdx ("precio al público".toList) (pdf_text.map pyLower)).orElse
      (fun _ => findSubIdx ("precio al publico".toList) (pdf_text.map pyLower)) with
  | none => .ok []
  | some start_idx => textLines (splitLines ((pdf_text.drop start_idx).take 4000))

/-- micm_scraper.py `parse_prices_from_text`: the scan followed by the
dedup-by-key loop. -/
def parse_prices_from_text (pdf_text : List Char) : Except Unit (List Item) :=
  match rawTextItems pdf_text with
  | .error e => .error e
  | .ok items => .ok (dedupByKey items)

/-- `RANGE_PATTERNS[0]`:
`(?:semana\s+)?del\s+(\d{1,2}\s+de\s+[a-záéíóú]+)\s+(?:al|-)\s+(\d{1,2}\s+de\s+[a-záéíóú]+)\s+de\s+(\d{4})`. -/
def rp0 : List Tok :=
  [pSemana, Tok.lit ("del".toList), wsT,
   Tok.openG, dT 1 2, wsT, Tok.lit ("de".toList), wsT, letsT, Tok.closeG,
   wsT, altAl, wsT,
   Tok.openG, dT 1 2, wsT, Tok.lit ("de".toList), wsT, letsT, Tok.closeG,
   wsT, Tok.lit ("de".toList), wsT, Tok.openG, dT 4 4, Tok.closeG]

/-- `RANGE_PATTERNS[1]`:
`(?:semana\s+)?del\s+(\d{1,2})\s+(?:al|-)\s+(\d{1,2}\s+de\s+[a-záéíóú]+)\s+de\s+(\d{4})`. -/
def rp1 : List Tok :=
  [pSemana, Tok.lit ("del".toList), wsT,
   Tok.openG, dT 1 2, Tok.closeG, wsT, altAl, wsT,
   Tok.openG, dT 1 2, wsT, Tok.lit ("de".toList), wsT, letsT, Tok.closeG,
   wsT, Tok.lit ("de".toList), wsT, Tok.openG, dT 4 4, Tok.closeG]

/-- `RANGE_PATTERNS[2]`:
`(?:semana\s+)?del\s+(\d{1,2})\s+(?:al|-)\s+(\d{1,2})[\/\-](\d{1,2})[\/\-](\d{4})`. -/
def rp2 : List Tok :=
  [pSemana, Tok.lit ("del".toList), wsT,
   Tok.openG, dT 1 2, Tok.closeG, wsT, altAl, wsT,
   Tok.openG, dT 1 2, Tok.closeG, slashDashT,
   Tok.openG, dT 1 2, Tok.closeG, slashDashT,
   Tok.openG, dT 4 4, Tok.closeG]

/-- The vowel de-accenting chain of `_parse_spanish_date`. -/
def deaccentVowel (c : Char) : Char :=
  if c = 'á' then 'a' else if c = 'é' then 'e' else if c = 'í' then 'i'
  else if c = 'ó' then 'o' else if c = 'ú' then 'u' else c

/-- `re.match(r"(\d{1,2})\s+de\s+([a-záéíóú]+)", frag, re.IGNORECASE)`. -/
def psdToks : List Tok :=
  [Tok.openG, dT 1 2, Tok.closeG, wsT, Tok.lit ("de".toList), wsT,
   Tok.openG, letsT, Tok.closeG]

/-- `re.match(r"^(\d{1,2})$", frag)`. -/
def psd2Toks : List Tok :=
  [Tok.openG, dT 1 2, Tok.closeG, Tok.eos]

/-- micm_scraper.py `_parse_spanish_date` (lines 286-302).  `.error ()` is
the `ValueError` raised by `datetime.date` on an invalid day — the source
has no try/except, so it propagates. -/
def pSpanishDate (fragment : List Char) (default_year default_month : Option ℕ) :
    Except Unit (Option Date) :=
  let frag := (pyStrip fragment).map pyLower
  match reMatchAt0 psdToks frag with
  | some gs =>
    let day := digitsToNat (gs.getD 0 [])
    let month_name := (gs.getD 1 []).map deaccentVowel
    match SPANISH_MONTHS.lookup month_name, default_year with
    | some month, some y =>
      if y ≠ 0 then
        if validDate y month day then .ok (some ⟨y, month, day⟩) else .error ()
      else .ok none
    | _, _ => .ok none
  | none =>
    match reMatchAt0 psd2Toks frag with
    | some gs =>
      match default_year, default_month with
      | some y, some mo =>
        if y ≠ 0 ∧ mo ≠ 0 then
          if validDate y mo (digitsToNat (gs.getD 0 [])) then
            .ok (some ⟨y, mo, digitsToNat (gs.getD 0 [])⟩)
          else .error ()
        else .ok none
      | _, _ => .ok none
    | none => .ok none

/-- Branch of `parse_week_from_text` for `RANGE_PATTERNS[0]`; `.ok none`
falls through to the next pattern. -/
def tryPat0 (text : List Char) : Except Unit (Option Week) :=
  match reSearch rp0 text with
  | none => .ok none
  | some (_, _, gs) =>
    let year := digitsToNat (gs.getD 2 [])
    match pSpanishDate (gs.getD 1 []) (some year) none with
    | .error e => .error e
    | .ok ed =>
      match pSpanishDate (gs.getD 0 []) (some year) (ed.map (fun d => d.month)) with
      | .error e => .error e
      | .ok sd =>
        if sd.isSome ∧ ed.isSome then .ok (some (sd.map isoOfDate, ed.map isoOfDate))
        else .ok none

/-- Branch for `RANGE_PATTERNS[1]`. -/
def tryPat1 (text : List Char) : Except Unit (Option Week) :=
  match reSearch rp1 text with
  | none => .ok none
  | some (_, _, gs) =>
    let year := digitsToNat (gs.getD 2 [])
    match pSpanishDate (gs.getD 1 []) (some year) none with
    | .error e => .error e
    | .ok ed =>
      match pSpanishDate (gs.getD 0 []) (some year) (ed.map (fun d => d.month)) with
      | .error e => .error e
      | .ok sd =>
        if sd.isSome ∧ ed.isSome then .ok (some (sd.map isoOfDate, ed.map isoOfDate))
        else .ok none

/-- Branch for `RANGE_PATTERNS[2]`: `datetime.date(year, b_month, b_day)`
is built unguarded, so an invalid numeric range raises (`.error`). -/
def tryPat2 (text : List Char) : Except Unit (Option Week) :=
  match reSearch rp2 text with
  | none => .ok none
  | some (_, _, gs) =>
    let year := digitsToNat (gs.getD 3 [])
    let b_day := digitsToNat (gs.getD 1 [])
    let b_month := digitsToNat (gs.getD 2 [])
    if validDate year b_month b_day then
      match pSpanishDate (gs.getD 0 []) (some year) (some b_month) with
      | .error e => .error e
      | .ok sd =>
        if sd.isSome then
          .ok (some (sd.map isoOfDate, some (isoOfDate ⟨year, b_month, b_day⟩)))
        else .ok none
    else .error ()

/-- micm_scraper.py `parse_week_from_text` (lines 304-334): the three
patterns in order, `(None, None)` when none returns. -/
def parse_week_from_text (text : List Char) : Except Unit Week :=
  match tryPat0 text with
  | .error e => .error e
  | .ok (some r) => .ok r
  | .ok none =>
    match tryPat1 text with
    | .error e => .error e
    | .ok (some r) => .ok r
    | .ok none =>
      match tryPat2 text with
      | .error e => .error e
      | .ok (some r) => .ok r
      | .ok none => .ok (none, none)

/-- The filename fallback of `parse_week`: basename, then
`re.sub(r"[_\-\.]+", " ", fname)`. -/
def parse_week_url (pdf_url : Option (List Char)) : Except Unit Week :=
  match pdf_url with
  | some u =>
    if u ≠ [] then
      match parse_week_from_text
          (collapseRuns (fun c => c = '_' || c = '-' || c = '.') ' ' (basename u)) with
      | .error e => .error e
      | .ok r => if r.1.isSome ∧ r.2.isSome then .ok r else .ok (none, none)
    else .ok (none, none)
  | none => .ok (none, none)

/-- The anchor-text fallback of `parse_week` (`if hint_text:` is string
truthiness: present and nonempty). -/
def parse_week_hint (hint_text pdf_url : Option (List Char)) : Except Unit Week :=
  match hint_text with
  | some h =>
    if h ≠ [] then
      match parse_week_from_text h with
      | .error e => .error e
      | .ok r => if r.1.isSome ∧ r.2.isSome then .ok r else parse_week_url pdf_url
    else parse_week_url pdf_url
  | none => parse_week_url pdf_url

/-- micm_scraper.py `parse_week` (lines 336-350): document text, then the
link's anchor text, then the URL's cleaned filename. -/
def parse_week (text_pdf : List Char) (hint_text pdf_url : Option (List Char)) :
    Except Unit Week :=
  match parse_week_from_text text_pdf with
  | .error e => .error e
  | .ok r => if r.1.isSome ∧ r.2.isSome then .ok r else parse_week_hint hint_text pdf_url

end Micm

/-- JSON string escaping (`json.dump` with `ensure_ascii=False`; the
repertoire of control characters beyond these never occurs in a payload). -/
def jsonEscape : List Char → List Char
  | [] => []
  | c :: rest =>
    if c = '"' then '\\' :: '"' :: jsonEscape rest
    else if c = '\\' then '\\' :: '\\' :: jsonEscape rest
    else if c = '\n' then '\\' :: 'n' :: jsonEscape rest
    else c :: jsonEscape rest

def jsonStr (s : List Char) : List Char :=
  '"' :: (jsonEscape s ++ ['"'])

def jsonOptStr : Option (List Char) → List Char
  | none => ("null".toList)
  | some s => jsonStr s

/-- A fixed two-decimal rendering of a price standing in for Python's float
repr (the exact repr digits are irrelevant to every claim below: file
contents are only ever compared for two dumps of the same payload). -/
def renderRat (q : ℚ) : List Char :=
  let n := q.num.natAbs
  let d := q.den
  let sign := if q.num < 0 then ['-'] else []
  sign ++ natToDigits (n / d) ++ ('.' :: padZeros 2 (natToDigits (n % d * 100 / d)))

def jsonOptRat : Option ℚ → List Char
  | none => ("null".toList)
  | some q => renderRat q

/-- A bulletin payload as assembled by `main` in both scrapers. -/
structure Payload where
  source : List Char
  updated_at_utc : List Char
  week_start : Option (List Char)
  week_end : Option (List Char)
  currency : List Char
  items : List Item
deriving DecidableEq

/-- `json.dump(..., ensure_ascii=False, indent=2)` of a `change` object. -/
def dumpChange : Option Change → List Char
  | none => ("null".toList)
  | some c =>
    ("\x7b\n        \"type\": ".toList) ++ jsonStr c.type ++
    (",\n        \"amount_dop\": ".toList) ++ jsonOptRat c.amount_dop ++
    ("\n      \x7d".toList)

def dumpItem (it : Item) : List Char :=
  ("    \x7b\n      \"label\": ".toList) ++ jsonStr it.label ++
  (",\n      \"key\": ".toList) ++ jsonStr it.key ++
  (",\n      \"price_dop\": ".toList) ++ renderRat it.price_dop ++
  (",\n      \"unit\": ".toList) ++ jsonStr it.unit ++
  (",\n      \"change\": ".toList) ++ dumpChange it.change ++
  ("\n    \x7d".toList)

def dumpItems : List Item → List Char
  | [] => ("[]".toList)
  | it :: rest =>
    ("[\n".toList) ++ joinSep (",\n".toList) ((it :: rest).map dumpItem) ++ ("\n  ]".toList)

/-- `json.dump(payload, f, ensure_ascii=False, indent=2)`: the byte content
written for a payload (identical call in both write sites of both
scrapers). -/
def dumpPayload (p : Payload) : List Char :=
  ("\x7b\n  \"source\": ".toList) ++ jsonStr p.source ++
  (",\n  \"updated_at_utc\": ".toList) ++ jsonStr p.updated_at_utc ++
  (",\n  \"week\": \x7b\n    \"start_date\": ".toList) ++ jsonOptStr p.week_start ++
  (",\n    \"end_date\": ".toList) ++ jsonOptStr p.week_end ++
  ("\n  \x7d,\n  \"currency\": ".toList) ++ jsonStr p.currency ++
  (",\n  \"items\": ".toList) ++ dumpItems p.items ++
  ("\n\x7d".toList)

/-- Result of a `main` run: the payload and the bytes written to
`data/latest.json` and to the dated history file. -/
structure MainOut where
  payload : Payload
  latest : List Char
  history : List Char
deriving DecidableEq

namespace Micm

/-- micm_scraper.py `main` (lines 356-393), from the fetched inputs
(extracted tables, extracted text, chosen URL and anchor text, and the
current UTC timestamp string) to the two files written. -/
def main (tables : List (List (List (List Char)))) (pdf_text : List Char)
    (pdf_url link_text now : List Char) : Except Unit MainOut :=
  match parse_prices_from_tables tables with
  | .error e => .error e
  | .ok items1 =>
    match (if items1 = [] then parse_prices_from_text pdf_text else .ok items1) with
    | .error e => .error e
    | .ok items =>
      match parse_week pdf_text (some link_text) (some pdf_url) with
      | .error e => .error e
      | .ok wk =>
        let payload : Payload :=
          { source := pdf_url, updated_at_utc := now,
            week_start := wk.1, week_end := wk.2,
            currency := ("DOP".toList), items := items }
        .ok { payload := payload, latest := dumpPayload payload,
              history := dumpPayload payload }

end Micm

namespace Scr

/-- scraper.py `LABEL_CANON` (its synonym table), in source order. -/
def LABEL_CANON : List (List Char × List Char) :=
  [("gasolina premium".toList, "Gasolina Premium".toList),
   ("gasolina regular".toList, "Gasolina Regular".toList),
   ("gasoil premium".toList, "Gasoil Premium".toList),
   ("gasoil regular".toList, "Gasoil Regular".toList),
   ("gasoil optimo".toList, "Gasoil Óptimo".toList),
   ("gasoil óptimo".toList, "Gasoil Óptimo".toList),
   ("avtur".toList, "Avtur".toList),
   ("kerosene".toList, "Kerosene".toList),
   ("fuel oil #6".toList, "Fuel Oil #6".toList),
   ("fueloil #6".toList, "Fuel Oil #6".toList),
   ("fuel oil 1%s".toList, "Fuel Oil 1%S".toList),
   ("fueloil 1%s".toList, "Fuel Oil 1%S".toList),
   ("gas licuado de petroleo".toList, "Gas Licuado de Petróleo".toList),
   ("gas licuado de petróleo".toList, "Gas Licuado de Petróleo".toList),
   ("gas natural".toList, "Gas Natural".toList)]

/-- scraper.py `norm_key` (lines 56-69): the substring-test chain, then the
snake-case fallback. -/
def norm_key (label : List Char) : List Char :=
  let low := label.map pyLower
  if containsSub ("gasolina".toList) low ∧ containsSub ("premium".toList) low then
    ("gasolina_premium".toList)
  else if containsSub ("gasolina".toList) low ∧ containsSub ("regular".toList) low then
    ("gasolina_regular".toList)
  else if containsSub ("gasoil".toList) low ∧ containsSub ("premium".toList) low then
    ("gasoil_premium".toList)
  else if containsSub ("gasoil".toList) low ∧ containsSub ("regular".toList) low then
    ("gasoil_regular".toList)
  else if containsSub ("gasoil".toList) low ∧
      (containsSub ("óptimo".toList) low ∨ containsSub ("optimo".toList) low) then
    ("gasoil_optimo".toList)
  else if containsSub ("avtur".toList) low then ("avtur".toList)
  else if containsSub ("keros".toList) low then ("kerosene".toList)
  else if (containsSub ("fuel".toList) low ∨ containsSub ("fueloil".toList) low) ∧
      (containsSub ("1".toList) low ∧ containsSub ("s".toList) low) then
    ("fueloil_1s".toList)
  else if (containsSub ("fuel".toList) low ∨ containsSub ("fueloil".toList) low) ∧
      (containsSub ("#6".toList) low ∨ containsSub (" 6".toList) low) then
    ("fueloil_6".toList)
  else if containsSub ("gas licuado".toList) low ∨ containsSub ("glp".toList) low then
    ("glp".toList)
  else if containsSub ("gas natural".toList) low then ("gas_natural".toList)
  else
    stripBoth (fun c => c = '_')
      (collapseRuns (fun c => ¬ (('a' ≤ c ∧ c ≤ 'z') ∨ c.isDigit)) '_' low)

/-- scraper.py `collapse`: accent-strip, lower, keep only `[a-z0-9]`. -/
def collapse (s : List Char) : List Char :=
  ((s.map stripAccentChar).map pyLower).filter (fun c => ('a' ≤ c ∧ c ≤ 'z') ∨ c.isDigit)

/-- `[eé]` under `re.IGNORECASE`. -/
def isEAcc (c : Char) : Bool :=
  pyLower c = 'e' || pyLower c = 'é'

/-- `[oó]` under `re.IGNORECASE`. -/
def isOAcc (c : Char) : Bool :=
  pyLower c = 'o' || pyLower c = 'ó'

/-- `\bgasolina\s+premium\b`. -/
def vGasolinaPremium : List Tok :=
  [Tok.bnd, Tok.lit ("gasolina".toList), wsT, Tok.lit ("premium".toList), Tok.bnd]

/-- `\bgasolina\s+regular\b`. -/
def vGasolinaRegular : List Tok :=
  [Tok.bnd, Tok.lit ("gasolina".toList), wsT, Tok.lit ("regular".toList), Tok.bnd]

/-- `\bgasoil\s+premium\b`. -/
def vGasoilPremium : List Tok :=
  [Tok.bnd, Tok.lit ("gasoil".toList), wsT, Tok.lit ("premium".toList), Tok.bnd]

/-- `\bgasoil\s+regular\b`. -/
def vGasoilRegular : List Tok :=
  [Tok.bnd, Tok.lit ("gasoil".toList), wsT, Tok.lit ("regular".toList), Tok.bnd]

/-- `\bgasoil\s+o?́?ptimo\b` — the source pattern holds an optional 'o'
followed by an optional combining acute (U+0301). -/
def vGasoilOptimo1 : List Tok :=
  [Tok.bnd, Tok.lit ("gasoil".toList), wsT, Tok.opt [Tok.lit ("o".toList)],
   Tok.opt [Tok.lit ("́".toList)], Tok.lit ("ptimo".toList), Tok.bnd]

/-- `\bgasoil\s+optimo\b`. -/
def vGasoilOptimo2 : List Tok :=
  [Tok.bnd, Tok.lit ("gasoil".toList), wsT, Tok.lit ("optimo".toList), Tok.bnd]

/-- `\bavtur\b`. -/
def vAvtur : List Tok :=
  [Tok.bnd, Tok.lit ("avtur".toList), Tok.bnd]

/-- `\bkeros[eé]ne\b`. -/
def vKerosene1 : List Tok :=
  [Tok.bnd, Tok.lit ("keros".toList), Tok.rep isEAcc 1 (some 1),
   Tok.lit ("ne".toList), Tok.bnd]

/-- `\bkerosene\b`. -/
def vKerosene2 : List Tok :=
  [Tok.bnd, Tok.lit ("kerosene".toList), Tok.bnd]

/-- `\bfuel\s*oil\s*#?6\b`. -/
def vFuel61 : List Tok :=
  [Tok.bnd, Tok.lit ("fuel".toList), ws0T, Tok.lit ("oil".toList), ws0T,
   Tok.opt [Tok.lit ("#".toList)], Tok.lit ("6".toList), Tok.bnd]

/-- `\bfueloil\s*#?6\b`. -/
def vFuel62 : List Tok :=
  [Tok.bnd, Tok.lit ("fueloil".toList), ws0T,
   Tok.opt [Tok.lit ("#".toList)], Tok.lit ("6".toList), Tok.bnd]

/-- `\bfuel\s*oil\s*n?°?\s*6\b`. -/
def vFuel63 : List Tok :=
  [Tok.bnd, Tok.lit ("fuel".toList), ws0T, Tok.lit ("oil".toList), ws0T,
   Tok.opt [Tok.lit ("n".toList)], Tok.opt [Tok.lit ("°".toList)], ws0T,
   Tok.lit ("6".toList), Tok.bnd]

/-- `\bfuel\s*oil\s*1\s*%?\s*s\b`. -/
def vFuel1s1 : List Tok :=
  [Tok.bnd, Tok.lit ("fuel".toList), ws0T, Tok.lit ("oil".toList), ws0T,
   Tok.lit ("1".toList), ws0T, Tok.opt [Tok.lit ("%".toList)], ws0T,
   Tok.lit ("s".toList), Tok.bnd]

/-- `\bfueloil\s*1\s*%?\s*s\b`. -/
def vFuel1s2 : List Tok :=
  [Tok.bnd, Tok.lit ("fueloil".toList), ws0T,
   Tok.lit ("1".toList), ws0T, Tok.opt [Tok.lit ("%".toList)], ws0T,
   Tok.lit ("s".toList), Tok.bnd]

/-- `\bgas\s+licuado\s+de\s+petr[oó]leo(?:\s*\(glp\))?\b`. -/
def vGlp1 : List Tok :=
  [Tok.bnd, Tok.lit ("gas".toList), wsT, Tok.lit ("licuado".toList), wsT,
   Tok.lit ("de".toList), wsT, Tok.lit ("petr".toList), Tok.rep isOAcc 1 (some 1),
   Tok.lit ("leo".toList), Tok.opt [ws0T, Tok.lit ("(glp)".toList)], Tok.bnd]

/-- `\bglp\b`. -/
def vGlp2 : List Tok :=
  [Tok.bnd, Tok.lit ("glp".toList), Tok.bnd]

/-- `\bgas\s+natural\b`. -/
def vGasNatural : List Tok :=
  [Tok.bnd, Tok.lit ("gas".toList), wsT, Tok.lit ("natural".toList), Tok.bnd]

/-- scraper.py `LABEL_VARIANTS`, in source order. -/
def LABEL_VARIANTS : List (List Char × List (List Tok)) :=
  [("Gasolina Premium".toList, [vGasolinaPremium]),
   ("Gasolina Regular".toList, [vGasolinaRegular]),
   ("Gasoil Premium".toList, [vGasoilPremium]),
   ("Gasoil Regular".toList, [vGasoilRegular]),
   ("Gasoil Óptimo".toList, [vGasoilOptimo1, vGasoilOptimo2]),
   ("Avtur".toList, [vAvtur]),
   ("Kerosene".toList, [vKerosene1, vKerosene2]),
   ("Fuel Oil #6".toList, [vFuel61, vFuel62, vFuel63]),
   ("Fuel Oil 1%S".toList, [vFuel1s1, vFuel1s2]),
   ("Gas Licuado de Petróleo".toList, [vGlp1, vGlp2]),
   ("Gas Natural".toList, [vGasNatural])]

/-- `NUM_PAT = r"(?:RD\$\s*)?([\d\.\,]+)"`. -/
def numToks : List Tok :=
  [Tok.opt [Tok.lit ("rd$".toList), ws0T],
   Tok.openG, Tok.rep isNumTokChar 1 none, Tok.closeG]

/-- One page of `find_official_public_section` (lines 133-179): `none` is
the `continue` for a headerless page; otherwise the appended block (the
sliced window when a known label matches it, the raw page otherwise). -/
def pageBlock (raw : List Char) : Option (List Char) :=
  let norm := (raw.map stripAccentChar).map pyLower
  let col := collapse raw
  let okHead :=
    containsSub ("preciooficialapagarporelpublico".toList) col ||
    (containsSub ("precio".toList) norm && containsSub ("oficial".toList) norm &&
     containsSub ("publico".toList) norm && containsSub ("pagar".toList) norm)
  if okHead then
    let start_idx : Int :=
      match findSubIdx ("precio oficial a pagar".toList) norm with
      | some j => (j : Int)
      | none =>
        match findSubIdx ("preciooficialapagarporelpublico".toList) col with
        | some _ => 0
        | none => -1
    let startNat : ℕ := if 0 < start_idx then start_idx.toNat else 0
    let end_idx :=
      [("paridad".toList), ("referencia".toList), ("nota:".toList),
       ("paridad de importacion".toList), ("precios de paridad".toList)].foldl
        (fun e term =>
          match findSubFrom term norm (startNat + 1) with
          | some pos => min e pos
          | none => e) raw.length
    let block :=
      if start_idx ≠ -1 then (raw.drop start_idx.toNat).take (end_idx - start_idx.toNat)
      else raw
    if LABEL_VARIANTS.any (fun p => (reSearch (p.2.headD []) block).isSome) then
      some block
    else some raw
  else none

/-- scraper.py `find_official_public_section`. -/
def find_official_public_section (page_texts : List (List Char)) :
    List (ℕ × List Char) :=
  page_texts.enum.filterMap (fun p => (pageBlock p.2).map (fun b => (p.1, b)))

/-- The `add` closure of `parse_items_from_blocks`: a `ValueError` from
`parse_num` is swallowed (`except: return`). -/
def addItem (items : List Item) (label priceStr : List Char) : List Item :=
  match parse_num priceStr with
  | none => items
  | some val =>
    items ++ [{ label := label, key := norm_key label,
                price_dop := round2 val,
                unit := if label.map pyLower = ("gas natural".toList)
                  then ("m3".toList) else ("galon".toList),
                change := none }]

/-- The variant loop for one label on one chunk: the first variant that
matches *and* has a number in the 140-chars-after / 100-chars-before
window yields that number; a variant match without a number falls through
to the next variant (`matched` stays false). -/
def tryVariants (chunk : List Char) : List (List Tok) → Option (List Char)
  | [] => none
  | v :: vs =>
    match reSearch v chunk with
    | none => tryVariants chunk vs
    | some (st, en, _) =>
      let after := (chunk.drop en).take 140
      let lo := st - 100
      let before := (chunk.drop lo).take (st - lo)
      match (reSearch numToks after).orElse (fun _ => reSearch numToks before) with
      | some (_, _, gs) => some (gs.getD 0 [])
      | none => tryVariants chunk vs

/-- The label loop on one chunk: first label whose variants produce a
number wins (`if matched: break`). -/
def tryLabels (chunk : List Char) :
    List (List Char × List (List Tok)) → Option (List Char × List Char)
  | [] => none
  | (canon, variants) :: rest =>
    match tryVariants chunk variants with
    | some numStr => some (canon, numStr)
    | none => tryLabels chunk rest

/-- The sliding windows of one block: stripped nonempty lines, window
`lines[i:i+3]` joined by spaces, `[ \t]+` collapsed. -/
def blockChunks (block : List Char) : List (List Char) :=
  let lines := ((splitLines block).map pyStrip).filter (fun l => l ≠ [])
  (List.range lines.length).map (fun i =>
    collapseRuns (fun c => c = ' ' || c = '\t') ' '
      (joinSep (" ".toList) ((lines.drop i).take 3)))

/-- One chunk of the scan: try the labels, and on a hit run `add`. -/
def chunkStep (its : List Item) (chunk : List Char) : List Item :=
  match tryLabels chunk LABEL_VARIANTS with
  | some (canon, numStr) => addItem its canon numStr
  | none => its

/-- scraper.py `parse_items_from_blocks` (lines 184-235) before the dedup
step. -/
def rawBlockItems (blocks : List (ℕ × List Char)) : List Item :=
  blocks.foldl (fun items pr => (blockChunks pr.2).foldl chunkStep items) []

/-- scraper.py `parse_items_from_blocks`: the scan plus the dedup-by-key
loop. -/
def parse_items_from_blocks (blocks : List (ℕ × List Char)) : List Item :=
  dedupByKey (rawBlockItems blocks)

/-- scraper.py `RANGE_RE`. -/
def rangeRe : List Tok :=
  [pSemana, Tok.lit ("del".toList), wsT,
   Tok.openG, dT 1 2, Tok.closeG, wsT, Tok.lit ("de".toList), wsT,
   Tok.openG, letsT, Tok.closeG, wsT, altAl, wsT,
   Tok.openG, dT 1 2, Tok.closeG, wsT, Tok.lit ("de".toList), wsT,
   Tok.openG, letsT, Tok.closeG, wsT, Tok.lit ("de".toList), wsT,
   Tok.openG, dT 4 4, Tok.closeG]

/-- scraper.py `parse_week_from_text` (lines 250-265): accent-strip and
lower the text, search `RANGE_RE`, look the months up, build the dates
inside try/except. -/
def parse_week_from_text (text : List Char) : Week :=
  let t := (text.map stripAccentChar).map pyLower
  match reSearch rangeRe t with
  | none => (none, none)
  | some (_, _, gs) =>
    let y := digitsToNat (gs.getD 4 [])
    let d1 := digitsToNat (gs.getD 0 [])
    let d2 := digitsToNat (gs.getD 2 [])
    match SPANISH_MONTHS.lookup (gs.getD 1 []), SPANISH_MONTHS.lookup (gs.getD 3 []) with
    | some m1n, some m2n =>
      if validDate y m1n d1 ∧ validDate y m2n d2 then
        (some (isoOfDate ⟨y, m1n, d1⟩), some (isoOfDate ⟨y, m2n, d2⟩))
      else (none, none)
    | _, _ => (none, none)

/-- scraper.py `parse_week` (lines 267-275): the joined page text, then
the URL's basename, then the anchor text (`link_text or ""`), returning
the last attempt unconditionally. -/
def parse_week (page_texts : List (List Char)) (pdf_url : List Char)
    (link_text : Option (List Char)) : Week :=
  let all_text := joinSep ("\n".toList) page_texts
  let r := parse_week_from_text all_text
  if r.1.isSome ∧ r.2.isSome then r
  else
    let r2 := parse_week_from_text (basename pdf_url)
    if r2.1.isSome ∧ r2.2.isSome then r2
    else parse_week_from_text (link_text.getD [])

/-- scraper.py `main` (lines 280-312), from the fetched inputs to the two
files written (`items = parse_items_from_blocks(blocks) if blocks else []`;
the subsequent `if not items: items = []` is a no-op). -/
def main (page_texts : List (List Char)) (pdf_url link_text now : List Char) :
    MainOut :=
  let blocks := find_official_public_section page_texts
  let items := if blocks ≠ [] then parse_items_from_blocks blocks else []
  let wk := parse_week page_texts pdf_url (some link_text)
  let payload : Payload :=
    { source := pdf_url, updated_at_utc := now,
      week_start := wk.1, week_end := wk.2,
      currency := ("DOP".toList), items := items }
  { payload := payload, latest := dumpPayload payload, history := dumpPayload payload }

end Scr

/-- Lexicographic code-point order on strings (Python `<` on `str`),
as used by `sorted`. -/
def strLt : List Char → List Char → Bool
  | [], [] => false
  | [], _ :: _ => true
  | _ :: _, [] => false
  | a :: as, b :: bs => if a = b then strLt as bs else a.toNat < b.toNat

/-- Stable insertion: `x` goes after every element not strictly greater,
so `sortByLt` below is stable, like Python's `sorted`/`list.sort`. -/
def insertByLt {α : Type} (lt : α → α → Bool) (x : α) : List α → List α
  | [] => [x]
  | y :: ys => if lt x y then x :: y :: ys else y :: insertByLt lt x ys

/-- A stable sort; any stable comparison sort computes the same list, so
this embeds Python's Timsort faithfully. -/
def sortByLt {α : Type} (lt : α → α → Bool) (l : List α) : List α :=
  l.foldl (fun acc x => insertByLt lt x acc) []

namespace Trend

/-- An item of a history-file document as read back by the trend builders
(`it.get("key")` / `it.get("price_dop")`, either possibly absent). -/
structure HistItem where
  key : Option (List Char)
  price_dop : Option ℚ
deriving DecidableEq

/-- A parsed history-file document: `doc.get("week", {}).get("end_date")`
and `doc.get("items", [])`. -/
structure Doc where
  week_end : Option (List Char)
  items : List HistItem
deriving DecidableEq

structure Row where
  date : List Char
  price_dop : ℚ
deriving DecidableEq

structure RowD where
  date : List Char
  price_dop : ℚ
  delta_abs : Option ℚ
  delta_pct : Option ℚ
deriving DecidableEq

/-- The `trend.json` top-level object of build_trend.py `main`. -/
structure TrendOut where
  updated_at_utc : List Char
  currency : List Char
  series : List (List Char × List RowD)
  keys : List (List Char)
deriving DecidableEq

/-- The date of one history entry: `end_date` when truthy (present and
nonempty), else the filename stem `YYYY-MM-DD`. -/
def dateOfEntry (path : List Char) (doc : Doc) : List Char :=
  match doc.week_end with
  | some d => if d ≠ [] then d else splitextStem (basename path)
  | none => splitextStem (basename path)

/-- The loop body of build_trend.py `load_history` (lines 9-24) over the
already-sorted listing: a file whose read or `json.load` failed
(`.error`) is recorded in the warning list (the `print("[warn] ...")`)
and skipped; the run continues. -/
def load_historyGo :
    List (List Char × Except Unit Doc) →
      List (List Char × List HistItem) × List (List Char)
  | [] => ([], [])
  | (path, r) :: rest =>
    let acc := load_historyGo rest
    match r with
    | .ok doc => ((dateOfEntry path doc, doc.items) :: acc.1, acc.2)
    | .error _ => (acc.1, path :: acc.2)

/-- build_trend.py `load_history`: `sorted(glob.glob(...))` is embedded by
sorting the directory listing (pairs of path and read result) by path;
returns the entries and the warned paths. -/
def load_history (files : List (List Char × Except Unit Doc)) :
    List (List Char × List HistItem) × List (List Char) :=
  load_historyGo (sortByLt (fun a b => strLt a.1 b.1) files)

/-- `trend.setdefault(key, []).append(row)` on an insertion-ordered dict. -/
def addRow (key : List Char) (row : Row) :
    List (List Char × List Row) → List (List Char × List Row)
  | [] => [(key, [row])]
  | (k, rs) :: rest =>
    if k = key then (k, rs ++ [row]) :: rest
    else (k, rs) :: addRow key row rest

/-- The grouping loop of build_trend.py `build_trend` (lines 28-37):
skip falsy dates, skip items with `key is None or price is None`. -/
def collectTrend (entries : List (List Char × List HistItem)) :
    List (List Char × List Row) :=
  entries.foldl (fun tr e =>
    if e.1 = [] then tr
    else e.2.foldl (fun tr2 it =>
      match it.key, it.price_dop with
      | some k, some p => addRow k { date := e.1, price_dop := p } tr2
      | _, _ => tr2) tr) []

/-- `trend[key].sort(key=lambda x: x["date"])` for every key (stable). -/
def sortSeries (trend : List (List Char × List Row)) :
    List (List Char × List Row) :=
  trend.map (fun p => (p.1, sortByLt (fun a b => strLt a.date b.date) p.2))

/-- One output row of the delta loop (lines 44-59): deltas rounded to four
places, `delta_pct` only when the previous price is truthy (nonzero). -/
def mkRowD (prev : Option Row) (cur : Row) : RowD :=
  match prev with
  | none =>
    { date := cur.date, price_dop := cur.price_dop,
      delta_abs := none, delta_pct := none }
  | some pr =>
    let d := cur.price_dop - pr.price_dop
    { date := cur.date, price_dop := cur.price_dop,
      delta_abs := some (round4 d),
      delta_pct := if pr.price_dop ≠ 0 then some (round4 (d / pr.price_dop * 100)) else none }

def deltasGo (prev : Row) : List Row → List RowD
  | [] => []
  | r :: rest => mkRowD (some prev) r :: deltasGo r rest

/-- The delta loop over one sorted series (`prev` starts as `None`). -/
def addDeltas : List Row → List RowD
  | [] => []
  | r :: rest => mkRowD none r :: deltasGo r rest

/-- build_trend.py `build_trend` (lines 26-60). -/
def build_trend (entries : List (List Char × List HistItem)) :
    List (List Char × List RowD) :=
  (sortSeries (collectTrend entries)).map (fun p => (p.1, addDeltas p.2))

/-- build_trend.py `main` (lines 62-74): the object written to
`trend.json` (`updated_at_utc` is the run's timestamp string). -/
def main (files : List (List Char × Except Unit Doc)) (now : List Char) :
    TrendOut :=
  let trend := build_trend (load_history files).1
  { updated_at_utc := now, currency := ("DOP".toList),
    series := trend, keys := sortByLt strLt (trend.map (fun p => p.1)) }

end Trend

namespace TrendMin

/-- The loop body of build_trend_min.py `load_history` (lines 8-20) over
the sorted listing.  There is no try/except here: a file whose read or
`json.load` fails raises, so the failure propagates (`.error`). -/
def load_historyGo :
    List (List Char × Except Unit Trend.Doc) →
      Except Unit (List (List Char × List Char × ℚ))
  | [] => .ok []
  | (path, r) :: rest =>
    match r with
    | .error e => .error e
    | .ok doc =>
      let date := Trend.dateOfEntry path doc
      let rows := doc.items.filterMap (fun it =>
        match it.key, it.price_dop with
        | some k, some p => some (k, date, p)
        | _, _ => none)
      match load_historyGo rest with
      | .error e => .error e
      | .ok rs => .ok (rows ++ rs)

/-- build_trend_min.py `load_history`. -/
def load_history (files : List (List Char × Except Unit Trend.Doc)) :
    Except Unit (List (List Char × List Char × ℚ)) :=
  load_historyGo (sortByLt (fun a b => strLt a.1 b.1) files)

end TrendMin

/-- Concrete schema items sharing one key (test vectors for the dedup
properties). -/
def itemKA : Item where
  label := ("a".toList)
  key := ("k".toList)
  price_dop := 1
  unit := ("galon".toList)
  change := none

def itemKB : Item where
  label := ("b".toList)
  key := ("k".toList)
  price_dop := 2
  unit := ("galon".toList)
  change := none

/-- The item the micm text parser extracts from the witness document
"Precio al publico\nGasolina Premium 290.10". -/
def itemWitnessGP : Item where
  label := ("Gasolina Premium".toList)
  key := ("gasolina_premium".toList)
  price_dop := 2901 / 10
  unit := ("galon".toList)
  change := none

/-- Decidable equality for `Except`, so that concrete runs of the fallible
embedded functions can be checked by `decide`. -/
instance exceptDecEq {ε α : Type} [DecidableEq ε] [DecidableEq α] :
    DecidableEq (Except ε α) := fun a b =>
  match a, b with
  | .error e, .error f =>
    if h : e = f then isTrue (congrArg Except.error h)
    else isFalse (fun hh => h (Except.error.inj hh))
  | .ok x, .ok y =>
    if h : x = y then isTrue (congrArg Except.ok h)
    else isFalse (fun hh => h (Except.ok.inj hh))
  | .error _, .ok _ => isFalse (fun hh => Except.noConfusion hh)
  | .ok _, .error _ => isFalse (fun hh => Except.noConfusion hh)

/-- First-success combinator over week attempts: an attempt succeeds when
both dates are present (the `if s and e` tests of the parse_week
functions). -/
def weekOr (a b : Week) : Week :=
  if a.1.isSome ∧ a.2.isSome then a else b

/-- The same combinator through exceptions: a raising attempt aborts the
chain. -/
def weekOrE (a b : Except Unit Week) : Except Unit Week :=
  match a with
  | .error e => .error e
  | .ok r => if r.1.isSome ∧ r.2.isSome then .ok r else b

/-- Defaults for safe indexing into series in theorem statements. -/
def rowDefault : Trend.Row where
  date := []
  price_dop := 0

def rowDDefault : Trend.RowD where
  date := []
  price_dop := 0
  delta_abs := none
  delta_pct := none

/-- History entries carrying the two-point price series [100, 110] for one
key. -/
def entriesHundredTen : List (List Char × List Trend.HistItem) :=
  [(("2024-01-01".toList), [{ key := some ("k".toList), price_dop := some 100 }]),
   (("2024-01-08".toList), [{ key := some ("k".toList), price_dop := some 110 }])]

/-- The series build_trend derives from `entriesHundredTen`. -/
def serHundredTen : List Trend.RowD :=
  [{ date := ("2024-01-01".toList), price_dop := 100, delta_abs := none, delta_pct := none },
   { date := ("2024-01-08".toList), price_dop := 110, delta_abs := some 10, delta_pct := some 10 }]

/-- History entries carrying the two-point price series [0, 5]. -/
def entriesZeroFive : List (List Char × List Trend.HistItem) :=
  [(("2024-01-01".toList), [{ key := some ("k".toList), price_dop := some 0 }]),
   (("2024-01-08".toList), [{ key := some ("k".toList), price_dop := some 5 }])]

/-- History entries carrying the series [0, 0.00001], whose exact delta is
below the 4-decimal rounding grain. -/
def entriesTiny : List (List Char × List Trend.HistItem) :=
  [(("2024-01-01".toList), [{ key := some ("k".toList), price_dop := some 0 }]),
   (("2024-01-08".toList), [{ key := some ("k".toList), price_dop := some (1 / 100000) }])]

/-- The payload of a micm run over an empty table list and the document
"hello" (no header, no week). -/
def payloadHello : Payload where
  source := ("u".toList)
  updated_at_utc := ("T".toList)
  week_start := none
  week_end := none
  currency := ("DOP".toList)
  items := []

/-- The output of that run: one serialization, written twice. -/
def mainOutHello : MainOut where
  payload := payloadHello
  latest := dumpPayload payloadHello
  history := dumpPayload payloadHello

/-! ### Helper lemmas -/

theorem dropWhileWs_eq_self {s : List Char} (h : ∀ c ∈ s, isWsC c = false) :
    s.dropWhile (fun c => isWsC c) = s := by
  cases s with
  | nil => rfl
  | cons c cs =>
    rw [List.dropWhile_cons]
    simp [h c (List.mem_cons_self c cs)]

theorem pyStrip_eq_self {s : List Char} (h : ∀ c ∈ s, isWsC c = false) :
    pyStrip s = s := by
  unfold pyStrip
  rw [dropWhileWs_eq_self h, dropWhileWs_eq_self, List.reverse_reverse]
  intro c hc
  exact h c (List.mem_reverse.mp hc)

theorem numchar_not_ws {c : Char} (h : c.isDigit = true ∨ c = '.' ∨ c = ',') :
    isWsC c = false := by
  cases hw : isWsC c
  · rfl
  · exfalso
    unfold isWsC at hw
    simp only [Bool.or_eq_true, decide_eq_true_eq] at hw
    rcases hw with ((((hc | hc) | hc) | hc) | hc) | hc <;> subst hc <;>
      rcases h with h | h | h <;> simp_all

theorem map_commaDot_id {l : List Char} (h : ∀ c ∈ l, ¬ c = ',') :
    l.map (fun c => if c = ',' then '.' else c) = l := by
  induction l with
  | nil => rfl
  | cons c cs ih =>
    simp only [List.map_cons, if_neg (h c (List.mem_cons_self c cs))]
    rw [ih (fun d hd => h d (List.mem_cons_of_mem c hd))]

theorem filter_notdot_eq_filter_digit {l : List Char}
    (h : ∀ c ∈ l, c.isDigit = true ∨ c = '.') :
    l.filter (fun c => ¬ c = '.') = l.filter (fun c => c.isDigit) := by
  induction l with
  | nil => rfl
  | cons c cs ih =>
    have ihr := ih (fun d hd => h d (List.mem_cons_of_mem c hd))
    simp only [decide_not] at ihr
    rcases h c (List.mem_cons_self c cs) with hd | hd
    · have hne : ¬ c = '.' := by
        intro hc
        subst hc
        exact absurd hd (by decide)
      simp [List.filter_cons, hne, hd, ihr]
    · subst hd
      simp [List.filter_cons, ihr]

theorem dropWhileNotDot_append {l rest : List Char} (h : ∀ c ∈ l, ¬ c = '.') :
    (l ++ '.' :: rest).dropWhile (fun c => ¬ c = '.') = '.' :: rest := by
  induction l with
  | nil => simp [List.dropWhile_cons]
  | cons c cs ih =>
    have hc := h c (List.mem_cons_self c cs)
    have ihr := ih (fun d hd => h d (List.mem_cons_of_mem c hd))
    simp only [decide_not] at ihr
    simp only [List.cons_append, List.dropWhile_cons]
    simp [hc, ihr]

theorem filter_digit_eq_self {l : List Char} (h : ∀ c ∈ l, c.isDigit = true) :
    l.filter (fun c => c.isDigit) = l :=
  List.filter_eq_self.mpr h

/-- Evaluation of the embedded `float` on a well-formed decimal literal
`x ++ "." ++ y` with digit parts. -/
theorem pyFloat_decimal {x y : List Char}
    (hx : ∀ c ∈ x, c.isDigit = true) (hy : ∀ c ∈ y, c.isDigit = true)
    (hne : x ++ y ≠ []) :
    pyFloat (x ++ '.' :: y) =
      some ((digitsToNat (x ++ y) : ℚ) / 10 ^ y.length) := by
  have hdotx : '.' ∉ x := by
    intro hm
    exact absurd (hx '.' hm) (by decide)
  have hdoty : '.' ∉ y := by
    intro hm
    exact absurd (hy '.' hm) (by decide)
  have hall : (x ++ '.' :: y).all (fun c => c.isDigit || c = '.') = true := by
    simp only [List.all_append, List.all_cons, Bool.and_eq_true]
    refine ⟨List.all_eq_true.mpr fun c hc => by simp [hx c hc], by decide,
      List.all_eq_true.mpr fun c hc => by simp [hy c hc]⟩
  have hcount : (x ++ '.' :: y).count '.' ≤ 1 := by
    rw [List.count_append, List.count_cons]
    rw [List.count_eq_zero.mpr hdotx, List.count_eq_zero.mpr hdoty]
    simp
  have hany : (x ++ '.' :: y).any (fun c => c.isDigit) = true := by
    rcases x with _ | ⟨c, cs⟩
    · rcases y with _ | ⟨d, ds⟩
      · exact absurd rfl hne
      · have hd : d.isDigit = true := hy d (List.mem_cons_self d ds)
        simp [List.any_cons, hd]
    · simp only [List.cons_append, List.any_cons, Bool.or_eq_true]
      left
      exact hx c (List.mem_cons_self c cs)
  unfold pyFloat
  rw [if_pos ⟨hall, hcount, hany⟩]
  have hfil : (x ++ '.' :: y).filter (fun c => c.isDigit) = x ++ y := by
    rw [List.filter_append, List.filter_cons]
    simp only [show ('.' : Char).isDigit = false by decide]
    rw [filter_digit_eq_self hx, filter_digit_eq_self hy]
    simp
  have hfrac : fracLenOf (x ++ '.' :: y) = y.length := by
    unfold fracLenOf
    rw [dropWhileNotDot_append (fun c hc => fun he => hdotx (he ▸ hc))]
    simp
  rw [hfil, hfrac]

/-- Both separators present: the dots are dropped (thousands separators)
and the single comma becomes the decimal point. -/
theorem parse_num_both {x y : List Char}
    (hx : ∀ c ∈ x, c.isDigit = true ∨ c = '.')
    (hy : ∀ c ∈ y, c.isDigit = true ∨ c = '.')
    (hdot : '.' ∈ x ++ y)
    (hdig : ∃ c ∈ x ++ y, c.isDigit = true) :
    parse_num (x ++ ',' :: y) =
      some ((digitsToNat ((x ++ y).filter (fun c => c.isDigit)) : ℚ) /
        10 ^ (y.filter (fun c => c.isDigit)).length) := by
  have halpha : ∀ c ∈ x ++ ',' :: y, c.isDigit = true ∨ c = '.' ∨ c = ',' := by
    intro c hc
    rcases List.mem_append.mp hc with h | h
    · rcases hx c h with h1 | h1
      · exact Or.inl h1
      · exact Or.inr (Or.inl h1)
    · rcases List.mem_cons.mp h with h1 | h1
      · exact Or.inr (Or.inr h1)
      · rcases hy c h1 with h2 | h2
        · exact Or.inl h2
        · exact Or.inr (Or.inl h2)
  have hstrip : pyStrip (x ++ ',' :: y) = x ++ ',' :: y :=
    pyStrip_eq_self (fun c hc => numchar_not_ws (halpha c hc))
  have hmc : (',' : Char) ∈ x ++ ',' :: y :=
    List.mem_append_right x (List.mem_cons_self ',' y)
  have hmd : ('.' : Char) ∈ x ++ ',' :: y := by
    rcases List.mem_append.mp hdot with h | h
    · exact List.mem_append_left _ h
    · exact List.mem_append_right x (List.mem_cons_of_mem ',' h)
  have hxf : ∀ c ∈ x.filter (fun c => ¬ c = '.'), c.isDigit = true := by
    intro c hc
    rw [List.mem_filter] at hc
    rcases hx c hc.1 with h | h
    · exact h
    · exfalso
      have h2 := hc.2
      simp [h] at h2
  have hyf : ∀ c ∈ y.filter (fun c => ¬ c = '.'), c.isDigit = true := by
    intro c hc
    rw [List.mem_filter] at hc
    rcases hy c hc.1 with h | h
    · exact h
    · exfalso
      have h2 := hc.2
      simp [h] at h2
  have hxnc : ∀ c ∈ x.filter (fun c => ¬ c = '.'), ¬ c = ',' := by
    intro c hc he
    have hd := hxf c hc
    rw [he] at hd
    exact absurd hd (by decide)
  have hync : ∀ c ∈ y.filter (fun c => ¬ c = '.'), ¬ c = ',' := by
    intro c hc he
    have hd := hyf c hc
    rw [he] at hd
    exact absurd hd (by decide)
  have htrans :
      ((x ++ ',' :: y).filter (fun c => ¬ c = '.')).map (fun c => if c = ',' then '.' else c) =
        x.filter (fun c => ¬ c = '.') ++ '.' :: y.filter (fun c => ¬ c = '.') := by
    rw [List.filter_append, List.filter_cons]
    simp only [show (decide ¬(',' : Char) = '.') = true by decide, if_pos]
    rw [List.map_append, List.map_cons]
    simp only [if_pos rfl, if_true]
    rw [map_commaDot_id hxnc, map_commaDot_id hync]
  simp only [parse_num, hstrip]
  rw [if_pos ⟨hmc, hmd⟩, htrans]
  rw [filter_notdot_eq_filter_digit hx, filter_notdot_eq_filter_digit hy]
  have hne : x.filter (fun c => c.isDigit) ++ y.filter (fun c => c.isDigit) ≠ [] := by
    rcases hdig with ⟨c, hc, hcd⟩
    rcases List.mem_append.mp hc with h | h
    · exact List.ne_nil_of_mem
        (List.mem_append_left _ (List.mem_filter.mpr ⟨h, hcd⟩))
    · exact List.ne_nil_of_mem
        (List.mem_append_right _ (List.mem_filter.mpr ⟨h, hcd⟩))
  rw [pyFloat_decimal (fun c hc => (List.mem_filter.mp hc).2)
    (fun c hc => (List.mem_filter.mp hc).2) hne]
  rw [List.filter_append]

/-- Only a comma present: it is the decimal separator. -/
theorem parse_num_commaOnly {x y : List Char}
    (hx : ∀ c ∈ x, c.isDigit = true) (hy : ∀ c ∈ y, c.isDigit = true)
    (hne : x ++ y ≠ []) :
    parse_num (x ++ ',' :: y) =
      some ((digitsToNat (x ++ y) : ℚ) / 10 ^ y.length) := by
  have halpha : ∀ c ∈ x ++ ',' :: y, c.isDigit = true ∨ c = '.' ∨ c = ',' := by
    intro c hc
    rcases List.mem_append.mp hc with h | h
    · exact Or.inl (hx c h)
    · rcases List.mem_cons.mp h with h1 | h1
      · exact Or.inr (Or.inr h1)
      · exact Or.inl (hy c h1)
  have hstrip : pyStrip (x ++ ',' :: y) = x ++ ',' :: y :=
    pyStrip_eq_self (fun c hc => numchar_not_ws (halpha c hc))
  have hnd : ('.' : Char) ∉ x ++ ',' :: y := by
    intro hm
    rcases List.mem_append.mp hm with h | h
    · exact absurd (hx '.' h) (by decide)
    · rcases List.mem_cons.mp h with h1 | h1
      · exact absurd h1 (by decide)
      · exact absurd (hy '.' h1) (by decide)
  have hxnc : ∀ c ∈ x, ¬ c = ',' := by
    intro c hc he
    have hd := hx c hc
    rw [he] at hd
    exact absurd hd (by decide)
  have hync : ∀ c ∈ y, ¬ c = ',' := by
    intro c hc he
    have hd := hy c hc
    rw [he] at hd
    exact absurd hd (by decide)
  have htrans :
      (x ++ ',' :: y).map (fun c => if c = ',' then '.' else c) = x ++ '.' :: y := by
    rw [List.map_append, List.map_cons]
    simp only [if_pos rfl, if_true]
    rw [map_commaDot_id hxnc, map_commaDot_id hync]
  simp only [parse_num, hstrip]
  rw [if_neg (fun h => hnd h.2), htrans]
  exact pyFloat_decimal hx hy hne

/-- C1 counterexample: the claim asserts `parse_num("6.85.") = 6.85`, but on
the code the comma-absent branch leaves the trailing dot in place and
`float("6.85.")` raises `ValueError` (embedded as `none`), so `parse_num`
raises instead of returning 6.85. -/
theorem C1_counterexample :
    parse_num ("6.85.".toList) = none ∧
      ¬ parse_num ("6.85.".toList) = some ((685 : ℚ) / 100) := by
  constructor
  · decide
  · decide

/-- C1 (amended): parse_num's separator heuristic as the code implements
it.  The three convergent examples hold: `parse_num("290.10") = 290.10`,
`parse_num("290,10") = 290.10`, `parse_num("1.234,56") = 1234.56`.  In
general, on a numeric token `x ++ "," ++ y` over digits and dots with both
separators present, every dot is discarded as a thousands separator and the
comma is the decimal separator; with only a comma present (digit-only
parts), the comma is the decimal separator.  (`parse_num("6.85.")` raises
`ValueError` rather than returning 6.85 — see the counterexample.) -/
theorem C1_amended :
    (parse_num ("290.10".toList) = some ((29010 : ℚ) / 100) ∧
     parse_num ("290,10".toList) = some ((29010 : ℚ) / 100) ∧
     parse_num ("1.234,56".toList) = some ((123456 : ℚ) / 100)) ∧
    (∀ x y : List Char,
      (∀ c ∈ x, c.isDigit = true ∨ c = '.') →
      (∀ c ∈ y, c.isDigit = true ∨ c = '.') →
      '.' ∈ x ++ y →
      (∃ c ∈ x ++ y, c.isDigit = true) →
      parse_num (x ++ ',' :: y) =
        some ((digitsToNat ((x ++ y).filter (fun c => c.isDigit)) : ℚ) /
          10 ^ (y.filter (fun c => c.isDigit)).length)) ∧
    (∀ x y : List Char,
      (∀ c ∈ x, c.isDigit = true) → (∀ c ∈ y, c.isDigit = true) → x ++ y ≠ [] →
      parse_num (x ++ ',' :: y) =
        some ((digitsToNat (x ++ y) : ℚ) / 10 ^ y.length)) := by
  refine ⟨⟨by decide, by decide, by decide⟩, ?_, ?_⟩
  · intro x y hx hy hdot hdig
    exact parse_num_both hx hy hdot hdig
  · intro x y hx hy hne
    exact parse_num_commaOnly hx hy hne

/-- C1 witness: the two general clauses of the amended claim instantiated
at `"1.234" ++ "," ++ "56"` and `"290" ++ "," ++ "10"`. -/
theorem C1_witness :
    parse_num ("1.234".toList ++ ',' :: "56".toList) =
      some ((digitsToNat (("1.234".toList ++ "56".toList).filter (fun c => c.isDigit)) : ℚ) /
        10 ^ (("56".toList).filter (fun c => c.isDigit)).length) ∧
    parse_num ("290".toList ++ ',' :: "10".toList) =
      some ((digitsToNat ("290".toList ++ "10".toList) : ℚ) / 10 ^ ("10".toList).length) :=
  ⟨C1_amended.2.1 ("1.234".toList) ("56".toList) (by decide) (by decide) (by decide) (by decide),
   C1_amended.2.2 ("290".toList) ("10".toList) (by decide) (by decide) (by decide)⟩

/-- Characterisation of the dedup-by-key loop: keys never in `seen`, output
keys distinct, every kept item is the first of its key in the input, every
input item whose key is not in `seen` is represented. -/
theorem dedupGo_spec : ∀ (items : List Item) (seen : List (List Char)),
    (∀ it ∈ dedupGo items seen, it.key ∉ seen) ∧
    ((dedupGo items seen).map (fun it => it.key)).Nodup ∧
    (∀ it ∈ dedupGo items seen, items.find? (fun x => x.key == it.key) = some it) ∧
    (∀ it ∈ items, it.key ∉ seen → ∃ it2 ∈ dedupGo items seen, it2.key = it.key) := by
  intro items
  induction items with
  | nil =>
    intro seen
    refine ⟨?_, ?_, ?_, ?_⟩ <;> simp [dedupGo]
  | cons a rest ih =>
    intro seen
    by_cases hmem : a.key ∈ seen
    · have hd : dedupGo (a :: rest) seen = dedupGo rest seen := by
        simp [dedupGo, hmem]
      obtain ⟨h1, h2, h3, h4⟩ := ih seen
      refine ⟨?_, ?_, ?_, ?_⟩
      · rw [hd]; exact h1
      · rw [hd]; exact h2
      · rw [hd]
        intro it hit
        have hne : ¬ (a.key == it.key) = true := by
          intro hb
          have hke : a.key = it.key := by simpa using hb
          exact h1 it hit (hke ▸ hmem)
      
        rw [List.find?_cons]
        simp only [Bool.not_eq_true] at hne
        rw [hne]
        exact h3 it hit
      · rw [hd]
        intro it hit hnot
        rcases List.mem_cons.mp hit with he | he
        · exact absurd (he ▸ hmem) hnot
        · exact h4 it he hnot
    · have hd : dedupGo (a :: rest) seen = a :: dedupGo rest (a.key :: seen) := by
        simp [dedupGo, hmem]
      obtain ⟨h1, h2, h3, h4⟩ := ih (a.key :: seen)
      refine ⟨?_, ?_, ?_, ?_⟩
      · rw [hd]
        intro it hit
        rcases List.mem_cons.mp hit with he | he
        · exact he ▸ hmem
        · intro hin
          exact h1 it he (List.mem_cons_of_mem _ hin)
      · rw [hd]
        simp only [List.map_cons, List.nodup_cons]
        refine ⟨?_, h2⟩
        intro hmap
        rcases List.mem_map.mp hmap with ⟨it, hit, hke⟩
        exact h1 it hit (hke ▸ List.mem_cons_self _ _)
      · rw [hd]
        intro it hit
        rcases List.mem_cons.mp hit with he | he
        · subst he
          rw [List.find?_cons]
          simp
        · have hne : ¬ (a.key == it.key) = true := by
            intro hb
            have hke : it.key = a.key := by
              have := (beq_iff_eq (a := a.key) (b := it.key)).mp hb
              exact this.symm
            exact h1 it he (hke ▸ List.mem_cons_self _ _)
          rw [List.find?_cons]
          simp only [Bool.not_eq_true] at hne
          rw [hne]
          exact h3 it he
      · rw [hd]
        intro it hit hnot
        rcases List.mem_cons.mp hit with he | he
        · exact ⟨a, List.mem_cons_self _ _, he ▸ rfl⟩
        · by_cases hk : it.key = a.key
          · exact ⟨a, List.mem_cons_self _ _, hk.symm⟩
          · have hrec := h4 it he (by
              intro hin
              rcases List.mem_cons.mp hin with h5 | h5
              · exact hk h5
              · exact hnot h5)
            rcases hrec with ⟨it2, hit2, hke⟩
            exact ⟨it2, List.mem_cons_of_mem _ hit2, hke⟩

theorem dedupGo_subset : ∀ (items : List Item) (seen : List (List Char)),
    ∀ it ∈ dedupGo items seen, it ∈ items := by
  intro items
  induction items with
  | nil => intro seen it hit; simp [dedupGo] at hit
  | cons a rest ih =>
    intro seen it hit
    by_cases hmem : a.key ∈ seen
    · rw [show dedupGo (a :: rest) seen = dedupGo rest seen by simp [dedupGo, hmem]] at hit
      exact List.mem_cons_of_mem _ (ih seen it hit)
    · rw [show dedupGo (a :: rest) seen = a :: dedupGo rest (a.key :: seen) by
        simp [dedupGo, hmem]] at hit
      rcases List.mem_cons.mp hit with he | he
      · exact he ▸ List.mem_cons_self _ _
      · exact List.mem_cons_of_mem _ (ih (a.key :: seen) it he)

/-- C9 (confirmed): both cited matchers end in the dedup-by-key loop
(`parse_prices_from_text` is the line scan followed by `dedupByKey`;
`parse_items_from_blocks` is the window scan followed by `dedupByKey`), and
the loop keeps at most one item per canonical key — the item kept for a key
is the first item with that key in matching order (`List.find?`), and every
matched key stays represented. -/
theorem C9_dedup_first_match :
    (∀ text : List Char,
      Micm.parse_prices_from_text text = (Micm.rawTextItems text).map dedupByKey) ∧
    (∀ blocks : List (ℕ × List Char),
      Scr.parse_items_from_blocks blocks = dedupByKey (Scr.rawBlockItems blocks)) ∧
    (∀ items : List Item,
      ((dedupByKey items).map (fun it => it.key)).Nodup ∧
      (∀ it ∈ dedupByKey items, items.find? (fun x => x.key == it.key) = some it) ∧
      (∀ it ∈ items, ∃ it2 ∈ dedupByKey items, it2.key = it.key)) := by
  refine ⟨?_, ?_, ?_⟩
  · intro text
    unfold Micm.parse_prices_from_text
    cases Micm.rawTextItems text <;> rfl
  · intro blocks
    rfl
  · intro items
    obtain ⟨h1, h2, h3, h4⟩ := dedupGo_spec items []
    exact ⟨h2, h3, fun it hit => h4 it hit (by simp)⟩

/-- C9 witness: on two matched items sharing the key "k" (prices 1 and 2
in matching order), the dedup keeps exactly the first. -/
theorem C9_witness :
    [itemKA, itemKB].find? (fun x => x.key == ("k".toList)) = some itemKA ∧
    ((dedupByKey [itemKA, itemKB]).map (fun it => it.key)).Nodup := by
  constructor
  · have h := (C9_dedup_first_match.2.2 [itemKA, itemKB]).2.1 itemKA (by decide)
    have hk : itemKA.key = ("k".toList) := rfl
    rw [hk] at h
    exact h
  · exact (C9_dedup_first_match.2.2 [itemKA, itemKB]).1

theorem textLines_change_none : ∀ (lines : List (List Char)) (l : List Item),
    Micm.textLines lines = .ok l → ∀ it ∈ l, it.change = none := by
  intro lines
  induction lines with
  | nil =>
    intro l h it hit
    simp only [Micm.textLines] at h
    cases h
    simp at hit
  | cons line rest ih =>
    intro l h it hit
    simp only [Micm.textLines] at h
    split at h
    · exact ih l h it hit
    · split at h
      · exact ih l h it hit
      · split at h
        · exact ih l h it hit
        · split at h
          · cases h
          · split at h
            · cases h
            · cases h
              rcases List.mem_cons.mp hit with he | he
              · subst he; rfl
              · exact ih _ (by assumption) it he

theorem rawTextItems_change_none {text : List Char} {l : List Item}
    (h : Micm.rawTextItems text = .ok l) : ∀ it ∈ l, it.change = none := by
  unfold Micm.rawTextItems at h
  split at h
  · cases h
    simp
  · exact textLines_change_none _ l h

theorem tableRowItem_change_none {row : List (List Char)} {label_col pub_col : ℕ}
    {it : Item} (h : Micm.tableRowItem row label_col pub_col = .ok (some it)) :
    it.change = none := by
  simp only [Micm.tableRowItem] at h
  split at h
  · split at h
    · split at h
      · simp at h
      · split at h
        · simp at h
        · split at h
          · cases h
          · cases h
            rfl
    · simp at h
  · simp at h

theorem tableRows_change_none : ∀ (rows : List (List (List Char))) (lc pc : ℕ)
    (acc l : List Item), (∀ it ∈ acc, it.change = none) →
    Micm.tableRows lc pc rows acc = .ok l → ∀ it ∈ l, it.change = none := by
  intro rows
  induction rows with
  | nil =>
    intro lc pc acc l hacc h
    cases h
    exact hacc
  | cons row rest ih =>
    intro lc pc acc l hacc h
    simp only [Micm.tableRows] at h
    split at h
    · cases h
    · exact ih lc pc acc l hacc h
    · refine ih lc pc _ l ?_ h
      intro it2 hit2
      rcases List.mem_append.mp hit2 with hm | hm
      · exact hacc it2 hm
      · rcases List.mem_cons.mp hm with he | he
        · subst he
          exact tableRowItem_change_none (by assumption)
        · simp at he

theorem tablesLoop_change_none : ∀ (tables : List (List (List (List Char))))
    (items l : List Item), (∀ it ∈ items, it.change = none) →
    Micm.tablesLoop tables items = .ok l → ∀ it ∈ l, it.change = none := by
  intro tables
  induction tables with
  | nil =>
    intro items l hacc h
    cases h
    simp
  | cons tbl rest ih =>
    intro items l hacc h
    simp only [Micm.tablesLoop] at h
    split at h
    · exact ih items l hacc h
    · split at h
      · exact ih items l hacc h
      · split at h
        · cases h
        · rename_i items2 heq
          have hrows := tableRows_change_none _ _ _ items items2 hacc heq
          split at h
          · cases h
            exact hrows
          · exact ih _ l hrows h

theorem addItem_change_none {items : List Item}
    (h : ∀ it ∈ items, it.change = none) (label priceStr : List Char) :
    ∀ it ∈ Scr.addItem items label priceStr, it.change = none := by
  intro it hit
  unfold Scr.addItem at hit
  split at hit
  · exact h it hit
  · rcases List.mem_append.mp hit with hm | hm
    · exact h it hm
    · rcases List.mem_cons.mp hm with he | he
      · subst he; rfl
      · simp at he

theorem chunkStep_change_none {its : List Item}
    (h : ∀ it ∈ its, it.change = none) (chunk : List Char) :
    ∀ it ∈ Scr.chunkStep its chunk, it.change = none := by
  intro it hit
  unfold Scr.chunkStep at hit
  split at hit
  · exact addItem_change_none h _ _ it hit
  · exact h it hit

theorem foldl_chunkStep_change_none : ∀ (chunks : List (List Char))
    (acc : List Item), (∀ it ∈ acc, it.change = none) →
    ∀ it ∈ chunks.foldl Scr.chunkStep acc, it.change = none := by
  intro chunks
  induction chunks with
  | nil =>
    intro acc hacc
    simpa using hacc
  | cons c cs ih =>
    intro acc hacc
    rw [List.foldl_cons]
    exact ih _ (chunkStep_change_none hacc c)

theorem rawBlockItems_change_none : ∀ (blocks : List (ℕ × List Char)),
    ∀ it ∈ Scr.rawBlockItems blocks, it.change = none := by
  have hgen : ∀ (blocks : List (ℕ × List Char)) (acc : List Item),
      (∀ it ∈ acc, it.change = none) →
      ∀ it ∈ blocks.foldl (fun items pr => (Scr.blockChunks pr.2).foldl Scr.chunkStep items) acc,
        it.change = none := by
    intro blocks
    induction blocks with
    | nil =>
      intro acc hacc
      simpa using hacc
    | cons b bs ih =>
      intro acc hacc
      rw [List.foldl_cons]
      exact ih _ (foldl_chunkStep_change_none _ _ hacc)
  intro blocks
  exact hgen blocks [] (by simp)

/-- C10 (confirmed): every `PriceItem` any of the three price parsers emits
has `change = null` — the scrapers never populate the up/down/same change
object the schema allows. -/
theorem C10_change_always_none :
    (∀ (tables : List (List (List (List Char)))) (l : List Item),
      Micm.parse_prices_from_tables tables = .ok l → ∀ it ∈ l, it.change = none) ∧
    (∀ (text : List Char) (l : List Item),
      Micm.parse_prices_from_text text = .ok l → ∀ it ∈ l, it.change = none) ∧
    (∀ (blocks : List (ℕ × List Char)),
      ∀ it ∈ Scr.parse_items_from_blocks blocks, it.change = none) := by
  refine ⟨?_, ?_, ?_⟩
  · intro tables l h
    exact tablesLoop_change_none tables [] l (by simp) h
  · intro text l h it hit
    unfold Micm.parse_prices_from_text at h
    split at h
    · cases h
    · cases h
      exact rawTextItems_change_none (by assumption) it (dedupGo_subset _ [] it hit)
  · intro blocks it hit
    exact rawBlockItems_change_none blocks it
      (dedupGo_subset _ [] it hit)

/-- C10 witness: the item parsed from the concrete document
"Precio al publico\nGasolina Premium 290.10" has `change = null`. -/
theorem C10_witness : itemWitnessGP.change = none :=
  C10_change_always_none.2.1 ("Precio al publico\nGasolina Premium 290.10".toList)
    [itemWitnessGP] (by decide) itemWitnessGP (by decide)

/-- C2 counterexample: a run of scraper.py `parse_week` where the document
text has no week, the anchor text parses to the February week and the URL
filename parses to the January week.  The claimed priority (text, then
anchor, then filename) would return February; the code returns January,
because scraper.py tries the filename *before* the anchor text. -/
theorem C2_counterexample :
    Scr.parse_week_from_text ("sin fecha aqui".toList) = (none, none) ∧
    Scr.parse_week_from_text ("del 3 de febrero al 4 de febrero de 2024".toList) =
      (some ("2024-02-03".toList), some ("2024-02-04".toList)) ∧
    Scr.parse_week ["sin fecha aqui".toList]
        ("dir/del 1 de enero al 2 de enero de 2024.pdf".toList)
        (some ("del 3 de febrero al 4 de febrero de 2024".toList)) =
      (some ("2024-01-01".toList), some ("2024-01-02".toList)) ∧
    ((some ("2024-01-01".toList) : Option (List Char)), (some ("2024-01-02".toList) : Option (List Char))) ≠
      (some ("2024-02-03".toList), some ("2024-02-04".toList)) := by
  refine ⟨by decide, by decide, by decide, by decide⟩

/-- C2 (amended): both week parsers try their patterns against the document
text first and return the first attempt with both dates, but the fallback
order differs between the two scrapers: micm_scraper.py tries the text,
then the anchor text, then the cleaned URL filename; scraper.py tries the
joined text, then the URL filename, then the anchor text (the claimed
anchor-before-filename order holds only for micm_scraper.py). -/
theorem C2_amended :
    (∀ text hint url : List Char,
      Micm.parse_week text (some hint) (some url) =
        weekOrE (Micm.parse_week_from_text text)
          (weekOrE (if hint ≠ [] then Micm.parse_week_from_text hint else .ok (none, none))
            (weekOrE (if url ≠ [] then
                Micm.parse_week_from_text
                  (collapseRuns (fun c => c = '_' || c = '-' || c = '.') ' ' (basename url))
              else .ok (none, none))
              (.ok (none, none))))) ∧
    (∀ (page_texts : List (List Char)) (pdf_url link_text : List Char),
      Scr.parse_week page_texts pdf_url (some link_text) =
        weekOr (Scr.parse_week_from_text (joinSep ("\n".toList) page_texts))
          (weekOr (Scr.parse_week_from_text (basename pdf_url))
            (Scr.parse_week_from_text link_text))) := by
  constructor
  · intro text hint url
    simp only [Micm.parse_week, Micm.parse_week_hint, Micm.parse_week_url, weekOrE]
    cases Micm.parse_week_from_text text with
    | error e => rfl
    | ok r =>
      by_cases hr : r.1.isSome ∧ r.2.isSome
      · simp [hr]
      · simp only [if_neg hr]
        by_cases hh : hint = []
        · simp only [hh]
          simp only [ne_eq, not_true_eq_false, if_neg, if_false]
          by_cases hu : url = []
          · simp [hu]
          · simp only [ne_eq, hu, not_false_eq_true, if_true, if_pos]
            cases Micm.parse_week_from_text
                (collapseRuns (fun c => c = '_' || c = '-' || c = '.') ' ' (basename url)) with
            | error e => rfl
            | ok r3 =>
              by_cases hr3 : r3.1.isSome ∧ r3.2.isSome
              · simp [hr3]
              · simp [hr3]
        · simp only [ne_eq, hh, not_false_eq_true, if_true, if_pos]
          cases Micm.parse_week_from_text hint with
          | error e => rfl
          | ok r2 =>
            by_cases hr2 : r2.1.isSome ∧ r2.2.isSome
            · simp [hr2]
            · simp only [if_neg hr2]
              by_cases hu : url = []
              · simp [hu]
              · simp [hu]
  · intro page_texts pdf_url link_text
    simp only [Scr.parse_week, weekOr, Option.getD]

/-- C7 (confirmed): every label variant listed in the synonym tables maps
to the canonical snake_case key of its fuel — identically across the
variants of one fuel (same `FUEL_KEYS` value, same `LABEL_SYNONYMS` /
`LABEL_CANON` canonical label) and invariantly under upper-casing of the
variant (accent variants are themselves table entries). -/
theorem C7_norm_key_variants :
    (Micm.FUEL_KEYS.all (fun p =>
      Micm.norm_key p.1 == p.2 && Micm.norm_key (p.1.map pyUpper) == p.2)) = true ∧
    (Micm.LABEL_SYNONYMS.all (fun p =>
      Micm.norm_key p.1 == Micm.norm_key p.2 &&
      Micm.norm_key (p.1.map pyUpper) == Micm.norm_key p.1)) = true ∧
    (Micm.LABEL_SYNONYMS.all (fun p => Micm.LABEL_SYNONYMS.all (fun q =>
      !(p.2 == q.2) || (Micm.norm_key p.1 == Micm.norm_key q.1)))) = true ∧
    (Scr.LABEL_CANON.all (fun p =>
      Scr.norm_key p.1 == Scr.norm_key p.2 &&
      Scr.norm_key (p.1.map pyUpper) == Scr.norm_key p.1)) = true ∧
    (Scr.LABEL_CANON.all (fun p => Scr.LABEL_CANON.all (fun q =>
      !(p.2 == q.2) || (Scr.norm_key p.1 == Scr.norm_key q.1)))) = true := by
  refine ⟨by decide, by decide, by decide, by decide, by decide⟩

theorem insertByLt_perm {α : Type} (lt : α → α → Bool) (x : α) (l : List α) :
    List.Perm (insertByLt lt x l) (x :: l) := by
  induction l with
  | nil => exact List.Perm.refl _
  | cons y ys ih =>
    unfold insertByLt
    split
    · exact List.Perm.refl _
    · exact (ih.cons y).trans (List.Perm.swap x y ys)

theorem foldl_insert_perm {α : Type} (lt : α → α → Bool) : ∀ (l acc : List α),
    List.Perm (l.foldl (fun acc x => insertByLt lt x acc) acc) (acc ++ l) := by
  intro l
  induction l with
  | nil =>
    intro acc
    simp
  | cons x xs ih =>
    intro acc
    rw [List.foldl_cons]
    have h1 := ih (insertByLt lt x acc)
    have h2 : List.Perm (insertByLt lt x acc ++ xs) ((x :: acc) ++ xs) :=
      (insertByLt_perm lt x acc).append_right xs
    have h3 : List.Perm ((x :: acc) ++ xs) (acc ++ x :: xs) := List.perm_middle.symm
    exact h1.trans (h2.trans h3)

theorem sortByLt_perm {α : Type} (lt : α → α → Bool) (l : List α) :
    List.Perm (sortByLt lt l) l := by
  have h := foldl_insert_perm lt l []
  simpa [sortByLt] using h

theorem mem_sortByLt {α : Type} {lt : α → α → Bool} {l : List α} {x : α} :
    x ∈ sortByLt lt l ↔ x ∈ l :=
  (sortByLt_perm lt l).mem_iff

theorem load_historyGo_spec : ∀ (files : List (List Char × Except Unit Trend.Doc)),
    (Trend.load_historyGo files).1 =
      files.filterMap (fun pr => match pr.2 with
        | .ok doc => some (Trend.dateOfEntry pr.1 doc, doc.items)
        | .error _ => none) ∧
    (Trend.load_historyGo files).2 =
      files.filterMap (fun pr => match pr.2 with
        | .ok _ => none
        | .error _ => some pr.1) := by
  intro files
  induction files with
  | nil => exact ⟨rfl, rfl⟩
  | cons pr rest ih =>
    obtain ⟨h1, h2⟩ := ih
    obtain ⟨path, r⟩ := pr
    cases r with
    | ok doc => simp [Trend.load_historyGo, List.filterMap_cons, h1, h2]
    | error e => simp [Trend.load_historyGo, List.filterMap_cons, h1, h2]

theorem warnsGo_mem : ∀ (files : List (List Char × Except Unit Trend.Doc)),
    ∀ p ∈ files, p.2 = .error () → p.1 ∈ (Trend.load_historyGo files).2 := by
  intro files
  induction files with
  | nil =>
    intro p hp
    simp at hp
  | cons pr rest ih =>
    intro p hp he
    obtain ⟨path, r⟩ := pr
    rcases List.mem_cons.mp hp with hh | hh
    · subst hh
      simp only at he
      subst he
      simp [Trend.load_historyGo]
    · cases r with
      | ok doc =>
        simpa [Trend.load_historyGo] using ih p hh he
      | error e =>
        simp only [Trend.load_historyGo]
        exact List.mem_cons_of_mem _ (ih p hh he)

theorem minGo_error : ∀ (files : List (List Char × Except Unit Trend.Doc)),
    (∃ p ∈ files, p.2 = .error ()) → TrendMin.load_historyGo files = .error () := by
  intro files
  induction files with
  | nil =>
    rintro ⟨p, hp, _⟩
    simp at hp
  | cons pr rest ih =>
    rintro ⟨p, hp, he⟩
    obtain ⟨path, r⟩ := pr
    rcases List.mem_cons.mp hp with hh | hh
    · subst hh
      simp only at he
      subst he
      simp [TrendMin.load_historyGo]
    · cases r with
      | ok doc =>
        simp only [TrendMin.load_historyGo]
        rw [ih ⟨p, hh, he⟩]
      | error e =>
        simp [TrendMin.load_historyGo]

/-- C3 counterexample: a history directory holding one unreadable file.
build_trend.py skips it (no entries, the path logged), but
build_trend_min.py's `load_history` — cited by the claim — has no
try/except and the failure propagates: the run raises instead of
continuing. -/
theorem C3_counterexample :
    TrendMin.load_history
        [(("h/2024-01-01.json".toList), (.error () : Except Unit Trend.Doc))] = .error () ∧
    Trend.load_history
        [(("h/2024-01-01.json".toList), (.error () : Except Unit Trend.Doc))] =
      ([], [("h/2024-01-01.json".toList)]) := by
  exact ⟨by decide, by decide⟩

/-- C3 (amended): in build_trend.py a history file whose read or JSON
decode fails is logged and skipped and the run continues — the entries are
exactly those of the readable files (in sorted order) and every failing
path appears in the warning log; in build_trend_min.py the same failure
propagates and aborts the run. -/
theorem C3_amended :
    (∀ files : List (List Char × Except Unit Trend.Doc),
      (Trend.load_history files).1 =
        (sortByLt (fun a b => strLt a.1 b.1) files).filterMap (fun pr =>
          match pr.2 with
          | .ok doc => some (Trend.dateOfEntry pr.1 doc, doc.items)
          | .error _ => none)) ∧
    (∀ files : List (List Char × Except Unit Trend.Doc),
      ∀ p ∈ files, p.2 = .error () → p.1 ∈ (Trend.load_history files).2) ∧
    (∀ files : List (List Char × Except Unit Trend.Doc),
      ∀ p ∈ files, p.2 = .error () → TrendMin.load_history files = .error ()) := by
  refine ⟨?_, ?_, ?_⟩
  · intro files
    exact (load_historyGo_spec _).1
  · intro files p hp he
    exact warnsGo_mem _ p (mem_sortByLt.mpr hp) he
  · intro files p hp he
    exact minGo_error _ ⟨p, mem_sortByLt.mpr hp, he⟩

/-- C3 witness: a two-file directory with one bad file — the bad path is
logged by build_trend.py and build_trend_min.py raises. -/
theorem C3_witness :
    ("a.json".toList) ∈ (Trend.load_history
      [(("a.json".toList), (.error () : Except Unit Trend.Doc)),
       (("b.json".toList), (.ok ⟨none, []⟩ : Except Unit Trend.Doc))]).2 ∧
    TrendMin.load_history
      [(("a.json".toList), (.error () : Except Unit Trend.Doc)),
       (("b.json".toList), (.ok ⟨none, []⟩ : Except Unit Trend.Doc))] = .error () := by
  constructor
  · exact C3_amended.2.1 _ (("a.json".toList), (.error () : Except Unit Trend.Doc))
      (by decide) rfl
  · exact C3_amended.2.2 _ (("a.json".toList), (.error () : Except Unit Trend.Doc))
      (by decide) rfl

theorem charToNat_inj {a b : Char} (h : a.toNat = b.toNat) : a = b := by
  have h2 : Char.ofNat a.toNat = Char.ofNat b.toNat := by rw [h]
  rwa [Char.ofNat_toNat, Char.ofNat_toNat] at h2

theorem strLt_asymm : ∀ {a b : List Char}, strLt a b = true → strLt b a = false := by
  intro a
  induction a with
  | nil =>
    intro b h
    cases b with
    | nil => simp [strLt] at h
    | cons c cs => simp [strLt]
  | cons x xs ih =>
    intro b h
    cases b with
    | nil => simp [strLt] at h
    | cons y ys =>
      by_cases hxy : x = y
      · subst hxy
        simp only [strLt, if_pos rfl] at h ⊢
        exact ih h
      · have hyx : ¬ y = x := fun he => hxy he.symm
        simp only [strLt, if_neg hxy, decide_eq_true_eq] at h
        simp only [strLt, if_neg hyx, decide_eq_false_iff_not]
        omega

theorem strLt_trans : ∀ {a b c : List Char},
    strLt a b = true → strLt b c = true → strLt a c = true := by
  intro a
  induction a with
  | nil =>
    intro b c hab hbc
    cases b with
    | nil => simp [strLt] at hab
    | cons y ys =>
      cases c with
      | nil => simp [strLt] at hbc
      | cons z zs => simp [strLt]
  | cons x xs ih =>
    intro b c hab hbc
    cases b with
    | nil => simp [strLt] at hab
    | cons y ys =>
      cases c with
      | nil => simp [strLt] at hbc
      | cons z zs =>
        by_cases hxy : x = y <;> by_cases hyz : y = z
        · subst hxy; subst hyz
          simp only [strLt, if_pos rfl] at hab hbc ⊢
          exact ih hab hbc
        · subst hxy
          simp only [strLt, if_pos rfl] at hab
          simp only [strLt, if_neg hyz] at hbc ⊢
          exact hbc
        · subst hyz
          simp only [strLt, if_pos rfl] at hbc
          simp only [strLt, if_neg hxy] at hab ⊢
          exact hab
        · simp only [strLt, if_neg hxy, decide_eq_true_eq] at hab
          simp only [strLt, if_neg hyz, decide_eq_true_eq] at hbc
          by_cases hxz : x = z
          · subst hxz
            omega
          · simp only [strLt, if_neg hxz, decide_eq_true_eq]
            omega

theorem strLt_conn : ∀ {a b : List Char},
    strLt a b = false → strLt b a = false → a = b := by
  intro a
  induction a with
  | nil =>
    intro b hab _
    cases b with
    | nil => rfl
    | cons y ys => simp [strLt] at hab
  | cons x xs ih =>
    intro b hab hba
    cases b with
    | nil => simp [strLt] at hba
    | cons y ys =>
      by_cases hxy : x = y
      · subst hxy
        simp only [strLt, if_pos rfl] at hab hba
        rw [ih hab hba]
      · have hyx : ¬ y = x := fun he => hxy he.symm
        simp only [strLt, if_neg hxy, decide_eq_false_iff_not] at hab
        simp only [strLt, if_neg hyx, decide_eq_false_iff_not] at hba
        exact absurd (charToNat_inj (by omega)) hxy

theorem mem_insertByLt {α : Type} {lt : α → α → Bool} {x y : α} {l : List α} :
    y ∈ insertByLt lt x l ↔ y = x ∨ y ∈ l := by
  have h := (insertByLt_perm lt x l).mem_iff (a := y)
  simpa using h

theorem insertByLt_pairwise {α : Type} {lt : α → α → Bool}
    (hasym : ∀ a b, lt a b = true → lt b a = false)
    (htrans : ∀ a b c, lt a b = true → lt b c = true → lt a c = true)
    (x : α) : ∀ {l : List α},
    List.Pairwise (fun a b => lt b a = false) l →
    List.Pairwise (fun a b => lt b a = false) (insertByLt lt x l) := by
  intro l
  induction l with
  | nil =>
    intro _
    simp [insertByLt]
  | cons y ys ih =>
    intro hl
    rw [List.pairwise_cons] at hl
    obtain ⟨hy, hys⟩ := hl
    unfold insertByLt
    split
    · rename_i hxy
      rw [List.pairwise_cons]
      refine ⟨?_, List.pairwise_cons.mpr ⟨hy, hys⟩⟩
      intro z hz
      rcases List.mem_cons.mp hz with he | he
      · subst he
        exact hasym x z hxy
      · cases hzx : lt z x
        · rfl
        · exfalso
          have hzy : lt z y = true := htrans z x y hzx hxy
          rw [hy z he] at hzy
          cases hzy
    · rename_i hxy
      rw [List.pairwise_cons]
      refine ⟨?_, ih hys⟩
      intro z hz
      rcases mem_insertByLt.mp hz with he | he
      · subst he
        simpa using hxy
      · exact hy z he

theorem foldl_insert_pairwise {α : Type} {lt : α → α → Bool}
    (hasym : ∀ a b, lt a b = true → lt b a = false)
    (htrans : ∀ a b c, lt a b = true → lt b c = true → lt a c = true) :
    ∀ (l acc : List α), List.Pairwise (fun a b => lt b a = false) acc →
    List.Pairwise (fun a b => lt b a = false)
      (l.foldl (fun acc x => insertByLt lt x acc) acc) := by
  intro l
  induction l with
  | nil =>
    intro acc hacc
    simpa using hacc
  | cons x xs ih =>
    intro acc hacc
    rw [List.foldl_cons]
    exact ih _ (insertByLt_pairwise hasym htrans x hacc)

theorem sortByLt_pairwise {α : Type} {lt : α → α → Bool}
    (hasym : ∀ a b, lt a b = true → lt b a = false)
    (htrans : ∀ a b c, lt a b = true → lt b c = true → lt a c = true)
    (l : List α) :
    List.Pairwise (fun a b => lt b a = false) (sortByLt lt l) :=
  foldl_insert_pairwise hasym htrans l [] (by simp)

theorem pairwise_strict_of_nodup {α : Type} (key : α → List Char) : ∀ {l : List α},
    List.Pairwise (fun a b => strLt (key b) (key a) = false) l →
    (l.map key).Nodup →
    List.Pairwise (fun a b => strLt (key a) (key b) = true) l := by
  intro l
  induction l with
  | nil =>
    intro _ _
    simp
  | cons a rest ih =>
    intro hs hn
    rw [List.pairwise_cons] at hs
    rw [List.map_cons, List.nodup_cons] at hn
    rw [List.pairwise_cons]
    refine ⟨?_, ih hs.2 hn.2⟩
    intro b hb
    cases hab : strLt (key a) (key b)
    · exfalso
      have hba := hs.1 b hb
      have heq := strLt_conn hab hba
      exact hn.1 (heq ▸ List.mem_map_of_mem key hb)
    · rfl

theorem eq_of_perm_of_sortedKeys {α : Type} (key : α → List Char) {l₁ l₂ : List α}
    (hp : List.Perm l₁ l₂)
    (h₁ : List.Pairwise (fun a b => strLt (key b) (key a) = false) l₁)
    (h₂ : List.Pairwise (fun a b => strLt (key b) (key a) = false) l₂)
    (hn : (l₁.map key).Nodup) : l₁ = l₂ := by
  have hn₂ : (l₂.map key).Nodup := ((hp.map key).nodup_iff).mp hn
  have s₁ := pairwise_strict_of_nodup key h₁ hn
  have s₂ := pairwise_strict_of_nodup key h₂ hn₂
  haveI : IsAntisymm α (fun a b => strLt (key a) (key b) = true) := ⟨by
    intro a b hab hba
    rw [strLt_asymm hab] at hba
    cases hba⟩
  exact List.eq_of_perm_of_sorted hp s₁ s₂

/-- C4 counterexample: `main` stamps `updated_at_utc` with the run's
timestamp, so two runs of the trend builder over the *same* (here: empty)
history directory at different times write different `trend.json` files —
the second run's output does not equal the first's. -/
theorem C4_counterexample :
    Trend.main [] ("2025-01-01T00:00:00Z".toList) ≠
      Trend.main [] ("2025-01-08T00:00:00Z".toList) := by
  decide

/-- C4 (amended): the trend builder is deterministic in the history
directory contents — over an unchanged directory, any two runs produce
identical `series`, `keys` and `currency` whatever order the filesystem
lists the files in (the `sorted(glob)` normalises the listing; filenames
are distinct), and the whole `trend.json` is identical exactly when the
two runs carry the same `updated_at_utc` timestamp. -/
theorem C4_amended :
    (∀ (files₁ files₂ : List (List Char × Except Unit Trend.Doc)) (now : List Char),
      List.Perm files₁ files₂ → (files₁.map (fun p => p.1)).Nodup →
      Trend.main files₁ now = Trend.main files₂ now) ∧
    (∀ (files : List (List Char × Except Unit Trend.Doc)) (now₁ now₂ : List Char),
      (Trend.main files now₁).series = (Trend.main files now₂).series ∧
      (Trend.main files now₁).keys = (Trend.main files now₂).keys ∧
      (Trend.main files now₁).currency = (Trend.main files now₂).currency) := by
  constructor
  · intro f1 f2 now hp hn
    have hasym : ∀ (a b : List Char × Except Unit Trend.Doc),
        strLt a.1 b.1 = true → strLt b.1 a.1 = false := fun a b h => strLt_asymm h
    have htrans : ∀ (a b c : List Char × Except Unit Trend.Doc),
        strLt a.1 b.1 = true → strLt b.1 c.1 = true → strLt a.1 c.1 = true :=
      fun a b c h1 h2 => strLt_trans h1 h2
    have hsort : sortByLt (fun a b => strLt a.1 b.1) f1 =
        sortByLt (fun a b => strLt a.1 b.1) f2 := by
      apply eq_of_perm_of_sortedKeys (fun p => p.1)
      · exact ((sortByLt_perm _ f1).trans hp).trans (sortByLt_perm _ f2).symm
      · exact sortByLt_pairwise hasym htrans f1
      · exact sortByLt_pairwise hasym htrans f2
      · exact (((sortByLt_perm _ f1).map (fun p => p.1)).nodup_iff).mpr hn
    unfold Trend.main Trend.load_history
    rw [hsort]
  · intro files now1 now2
    exact ⟨rfl, rfl, rfl⟩

/-- C4 witness: the invariance clause applied to a two-file directory
listed in the two possible orders, and the timestamp-independence clause
at two concrete timestamps. -/
theorem C4_witness :
    Trend.main [(("h/a.json".toList), (.ok ⟨none, []⟩ : Except Unit Trend.Doc)),
        (("h/b.json".toList), (.ok ⟨some ("2024-01-05".toList), []⟩ : Except Unit Trend.Doc))]
        ("T".toList) =
      Trend.main [(("h/b.json".toList), (.ok ⟨some ("2024-01-05".toList), []⟩ : Except Unit Trend.Doc)),
        (("h/a.json".toList), (.ok ⟨none, []⟩ : Except Unit Trend.Doc))] ("T".toList) ∧
    (Trend.main [] ("T1".toList)).series = (Trend.main [] ("T2".toList)).series := by
  constructor
  · exact C4_amended.1 _ _ ("T".toList)
      (List.Perm.swap (("h/b.json".toList), (.ok ⟨some ("2024-01-05".toList), []⟩ : Except Unit Trend.Doc))
        (("h/a.json".toList), (.ok ⟨none, []⟩ : Except Unit Trend.Doc)) [])
      (by decide)
  · exact (C4_amended.2 [] ("T1".toList) ("T2".toList)).1

theorem deltasGo_getD : ∀ (s : List Trend.Row) (prev : Trend.Row) (i : ℕ),
    i < s.length →
    (Trend.deltasGo prev s).getD i rowDDefault =
      Trend.mkRowD (some (if i = 0 then prev else s.getD (i - 1) rowDefault))
        (s.getD i rowDefault) := by
  intro s
  induction s with
  | nil =>
    intro prev i h
    simp at h
  | cons r rest ih =>
    intro prev i h
    cases i with
    | zero => simp [Trend.deltasGo]
    | succ j =>
      simp only [Trend.deltasGo, List.getD_cons_succ]
      rw [ih r j (by simpa using h)]
      cases j with
      | zero => simp
      | succ jj => simp

theorem deltasGo_length : ∀ (s : List Trend.Row) (prev : Trend.Row),
    (Trend.deltasGo prev s).length = s.length := by
  intro s
  induction s with
  | nil => intro prev; rfl
  | cons r rest ih =>
    intro prev
    simp [Trend.deltasGo, ih r]

theorem addDeltas_length (s : List Trend.Row) :
    (Trend.addDeltas s).length = s.length := by
  cases s with
  | nil => rfl
  | cons r rest => simp [Trend.addDeltas, deltasGo_length]

theorem addDeltas_getD_succ : ∀ (s : List Trend.Row) (i : ℕ), i + 1 < s.length →
    (Trend.addDeltas s).getD (i + 1) rowDDefault =
      Trend.mkRowD (some (s.getD i rowDefault)) (s.getD (i + 1) rowDefault) := by
  intro s i h
  cases s with
  | nil => simp at h
  | cons r rest =>
    simp only [Trend.addDeltas, List.getD_cons_succ]
    rw [deltasGo_getD rest r i (by simpa using h)]
    cases i with
    | zero => simp
    | succ j => simp

theorem addDeltas_price : ∀ (s : List Trend.Row) (i : ℕ), i < s.length →
    ((Trend.addDeltas s).getD i rowDDefault).price_dop =
      (s.getD i rowDefault).price_dop := by
  intro s i h
  cases s with
  | nil => simp at h
  | cons r rest =>
    cases i with
    | zero => simp [Trend.addDeltas, Trend.mkRowD]
    | succ j =>
      simp only [Trend.addDeltas, List.getD_cons_succ]
      rw [deltasGo_getD rest r j (by simpa using h)]
      simp [Trend.mkRowD]

theorem build_trend_lookup : ∀ (entries : List (List Char × List Trend.HistItem))
    (k : List Char) (ser : List Trend.RowD),
    (Trend.build_trend entries).lookup k = some ser →
    ∃ s : List Trend.Row, ser = Trend.addDeltas s := by
  intro entries k ser
  unfold Trend.build_trend
  generalize Trend.sortSeries (Trend.collectTrend entries) = l
  induction l with
  | nil =>
    intro h
    simp at h
  | cons p rest ih =>
    intro h
    simp only [List.map_cons] at h
    cases hk : k == p.1
    · simp only [List.lookup, hk] at h
      exact ih h
    · simp only [List.lookup, hk] at h
      exact ⟨p.2, (Option.some.inj h).symm⟩

/-- C5 counterexample: over the series [0, 0.00001] the code computes
`delta_abs = round(0.00001 - 0, 4) = 0.0`, not the exact difference the
claim asserts (`0.00001`): the deltas are rounded to four decimal
places. -/
theorem C5_counterexample :
    Trend.build_trend entriesTiny =
      [(("k".toList),
        [{ date := ("2024-01-01".toList), price_dop := 0,
           delta_abs := none, delta_pct := none },
         { date := ("2024-01-08".toList), price_dop := 1 / 100000,
           delta_abs := some 0, delta_pct := none }])] ∧
    some (0 : ℚ) ≠ some ((1 / 100000 : ℚ) - 0) := by
  exact ⟨by decide, by decide⟩

/-- C5 (amended): in every per-key series produced by build_trend, each
entry after the first has `delta_abs` equal to the current price minus the
previous price *rounded to 4 decimal places* (Python `round(d, 4)`), and
`delta_pct` equal to that difference divided by the previous price times
100, likewise rounded to 4 places, null when the previous price is zero.
The spec's examples hold: [100, 110] gives `delta_abs = 10`,
`delta_pct = 10.0`; [0, 5] gives `delta_pct = null`. -/
theorem C5_amended :
    (∀ (entries : List (List Char × List Trend.HistItem)) (k : List Char)
        (ser : List Trend.RowD) (i : ℕ),
      (Trend.build_trend entries).lookup k = some ser → i + 1 < ser.length →
      (ser.getD (i + 1) rowDDefault).delta_abs =
        some (round4 ((ser.getD (i + 1) rowDDefault).price_dop -
          (ser.getD i rowDDefault).price_dop)) ∧
      (ser.getD (i + 1) rowDDefault).delta_pct =
        (if (ser.getD i rowDDefault).price_dop ≠ 0 then
          some (round4 (((ser.getD (i + 1) rowDDefault).price_dop -
            (ser.getD i rowDDefault).price_dop) /
            (ser.getD i rowDDefault).price_dop * 100))
        else none)) ∧
    Trend.build_trend entriesHundredTen = [(("k".toList), serHundredTen)] ∧
    Trend.build_trend entriesZeroFive =
      [(("k".toList),
        [{ date := ("2024-01-01".toList), price_dop := 0,
           delta_abs := none, delta_pct := none },
         { date := ("2024-01-08".toList), price_dop := 5,
           delta_abs := some 5, delta_pct := none }])] := by
  refine ⟨?_, by decide, by decide⟩
  intro entries k ser i hlk hi
  obtain ⟨s, hs⟩ := build_trend_lookup entries k ser hlk
  subst hs
  have hlen : i + 1 < s.length := by
    rwa [addDeltas_length] at hi
  have hsucc := addDeltas_getD_succ s i hlen
  have hp0 := addDeltas_price s i (by omega)
  rw [hsucc, hp0]
  simp [Trend.mkRowD]

/-- C5 witness: the general clause at the [100, 110] series, index 0. -/
theorem C5_witness :
    (serHundredTen.getD 1 rowDDefault).delta_abs =
      some (round4 ((serHundredTen.getD 1 rowDDefault).price_dop -
        (serHundredTen.getD 0 rowDDefault).price_dop)) ∧
    (serHundredTen.getD 1 rowDDefault).delta_pct =
      (if (serHundredTen.getD 0 rowDDefault).price_dop ≠ 0 then
        some (round4 (((serHundredTen.getD 1 rowDDefault).price_dop -
          (serHundredTen.getD 0 rowDDefault).price_dop) /
          (serHundredTen.getD 0 rowDDefault).price_dop * 100))
      else none) :=
  C5_amended.1 entriesHundredTen ("k".toList) serHundredTen 0 (by decide) (by decide)

theorem micmText_no_header {text : List Char}
    (h1 : findSubIdx ("precio al público".toList) (text.map pyLower) = none)
    (h2 : findSubIdx ("precio al publico".toList) (text.map pyLower) = none) :
    Micm.parse_prices_from_text text = .ok [] := by
  unfold Micm.parse_prices_from_text Micm.rawTextItems
  simp only [h1, h2, Option.orElse]
  rfl

theorem tablesLoop_no_header : ∀ (tables : List (List (List (List Char))))
    (items : List Item),
    (∀ tbl ∈ tables, Micm.tableHeaderInfo tbl = none) →
    Micm.tablesLoop tables items = .ok [] := by
  intro tables
  induction tables with
  | nil =>
    intro items _
    rfl
  | cons tbl rest ih =>
    intro items h
    unfold Micm.tablesLoop
    split
    · exact ih items (fun t ht => h t (List.mem_cons_of_mem _ ht))
    · rw [h tbl (List.mem_cons_self _ _)]
      exact ih items (fun t ht => h t (List.mem_cons_of_mem _ ht))

theorem enumFrom_filterMap_nil {α β γ : Type} (f : α → Option β) (g : ℕ × α → β → γ) :
    ∀ (l : List α) (n : ℕ), (∀ x ∈ l, f x = none) →
    (List.enumFrom n l).filterMap (fun p => (f p.2).map (g p)) = [] := by
  intro l
  induction l with
  | nil =>
    intro n _
    rfl
  | cons x xs ih =>
    intro n h
    simp only [List.enumFrom, List.filterMap_cons]
    rw [h x (List.mem_cons_self x xs)]
    exact ih (n + 1) (fun y hy => h y (List.mem_cons_of_mem _ hy))

theorem scr_pageBlock_none {raw : List Char}
    (h : (containsSub ("preciooficialapagarporelpublico".toList) (Scr.collapse raw) ||
      (containsSub ("precio".toList) ((raw.map stripAccentChar).map pyLower) &&
       containsSub ("oficial".toList) ((raw.map stripAccentChar).map pyLower) &&
       containsSub ("publico".toList) ((raw.map stripAccentChar).map pyLower) &&
       containsSub ("pagar".toList) ((raw.map stripAccentChar).map pyLower))) = false) :
    Scr.pageBlock raw = none := by
  unfold Scr.pageBlock
  simp only [h]
  rfl

/-- C6 counterexample: a document with no recognizable price-section header
(both price parsers return `items = []` without raising) whose text
contains "del 6 al 12/13/2025".  micm_scraper's week parser builds
`datetime.date(2025, 13, 12)` unguarded, the `ValueError` propagates out of
`main`, and no bulletin is written — contradicting the claim that the
bulletin is still written with the empty list. -/
theorem C6_counterexample :
    Micm.parse_prices_from_tables ([] : List (List (List (List Char)))) = .ok [] ∧
    Micm.parse_prices_from_text ("del 6 al 12/13/2025".toList) = .ok [] ∧
    Micm.main [] ("del 6 al 12/13/2025".toList) ("u".toList) ("l".toList)
      ("T".toList) = .error () := by
  refine ⟨by decide, by decide, by decide⟩

/-- C6 (amended): when no recognizable price-section header is found, each
price parser returns an empty item list without raising
(`parse_prices_from_text` when neither spelling of "precio al público"
occurs, `parse_prices_from_tables` when no table row carries a header
hint, scraper.py when no page passes the header test).  scraper.py then
always writes the bulletin with `items = []`; micm_scraper.py writes it
provided its week parser does not itself raise (see the counterexample:
an invalid numeric day/month range in the text raises before writing). -/
theorem C6_amended :
    (∀ text : List Char,
      findSubIdx ("precio al público".toList) (text.map pyLower) = none →
      findSubIdx ("precio al publico".toList) (text.map pyLower) = none →
      Micm.parse_prices_from_text text = .ok []) ∧
    (∀ tables : List (List (List (List Char))),
      (∀ tbl ∈ tables, Micm.tableHeaderInfo tbl = none) →
      Micm.parse_prices_from_tables tables = .ok []) ∧
    (∀ (page_texts : List (List Char)) (pdf_url link_text now : List Char),
      (∀ raw ∈ page_texts,
        (containsSub ("preciooficialapagarporelpublico".toList) (Scr.collapse raw) ||
          (containsSub ("precio".toList) ((raw.map stripAccentChar).map pyLower) &&
           containsSub ("oficial".toList) ((raw.map stripAccentChar).map pyLower) &&
           containsSub ("publico".toList) ((raw.map stripAccentChar).map pyLower) &&
           containsSub ("pagar".toList) ((raw.map stripAccentChar).map pyLower))) = false) →
      Scr.find_official_public_section page_texts = [] ∧
      (Scr.main page_texts pdf_url link_text now).payload.items = []) ∧
    (∀ (tables : List (List (List (List Char)))) (pdf_text pdf_url link_text now : List Char)
        (w : Week),
      (∀ tbl ∈ tables, Micm.tableHeaderInfo tbl = none) →
      findSubIdx ("precio al público".toList) (pdf_text.map pyLower) = none →
      findSubIdx ("precio al publico".toList) (pdf_text.map pyLower) = none →
      Micm.parse_week pdf_text (some link_text) (some pdf_url) = .ok w →
      ∃ out, Micm.main tables pdf_text pdf_url link_text now = .ok out ∧
        out.payload.items = []) := by
  refine ⟨?_, ?_, ?_, ?_⟩
  · intro text h1 h2
    exact micmText_no_header h1 h2
  · intro tables h
    exact tablesLoop_no_header tables [] h
  · intro pts url lk now h
    have hpb : ∀ raw ∈ pts, Scr.pageBlock raw = none :=
      fun raw hr => scr_pageBlock_none (h raw hr)
    have hfind : Scr.find_official_public_section pts = [] :=
      enumFrom_filterMap_nil Scr.pageBlock (fun p b => (p.1, b)) pts 0 hpb
    refine ⟨hfind, ?_⟩
    simp only [Scr.main, hfind]
    rfl
  · intro tables text url lk now w ht h1 h2 hw
    have hta : Micm.parse_prices_from_tables tables = .ok [] :=
      tablesLoop_no_header tables [] ht
    have htx := micmText_no_header h1 h2
    unfold Micm.main
    simp only [hta, htx, hw]
    exact ⟨_, rfl, rfl⟩

/-- C6 witness: the no-header clauses at a concrete headerless document
("hello"), where micm's week parse returns null/null without raising and
the bulletin is written with the empty item list. -/
theorem C6_witness :
    Micm.parse_prices_from_text ("hello".toList) = .ok [] ∧
    (Scr.main ["hello".toList] ("u".toList) ("l".toList) ("T".toList)).payload.items = [] ∧
    (∃ out, Micm.main [] ("hello".toList) ("u".toList) ("l".toList) ("T".toList) = .ok out ∧
      out.payload.items = []) := by
  refine ⟨?_, ?_, ?_⟩
  · exact C6_amended.1 ("hello".toList) (by decide) (by decide)
  · exact (C6_amended.2.2.1 ["hello".toList] ("u".toList) ("l".toList) ("T".toList)
      (by decide)).2
  · exact C6_amended.2.2.2 [] ("hello".toList) ("u".toList) ("l".toList) ("T".toList)
      (none, none) (by decide) (by decide) (by decide) (by decide)

/-- C8 (confirmed): in both scrapers `main` builds one payload and passes
the same object to both `json.dump` calls, so the bytes written to
`latest.json` and to the dated history file are identical — both equal the
single serialization of the payload. -/
theorem C8_roundtrip :
    (∀ (page_texts : List (List Char)) (pdf_url link_text now : List Char),
      (Scr.main page_texts pdf_url link_text now).latest =
        (Scr.main page_texts pdf_url link_text now).history ∧
      (Scr.main page_texts pdf_url link_text now).latest =
        dumpPayload (Scr.main page_texts pdf_url link_text now).payload) ∧
    (∀ (tables : List (List (List (List Char))))
        (pdf_text pdf_url link_text now : List Char) (out : MainOut),
      Micm.main tables pdf_text pdf_url link_text now = .ok out →
      out.latest = out.history ∧ out.latest = dumpPayload out.payload) := by
  constructor
  · intro pts url lk now
    exact ⟨rfl, rfl⟩
  · intro tables text url lk now out h
    unfold Micm.main at h
    split at h
    · cases h
    · split at h
      · cases h
      · split at h
        · cases h
        · cases h
          exact ⟨rfl, rfl⟩

/-- C8 witness: the micm clause at a concrete completed run. -/
theorem C8_witness :
    mainOutHello.latest = mainOutHello.history ∧
    mainOutHello.latest = dumpPayload mainOutHello.payload :=
  C8_roundtrip.2 [] ("hello".toList) ("u".toList) ("l".toList) ("T".toList)
    mainOutHello (by decide)
